import Mathlib

/-!
Verification development for the Resumatch text-similarity engine
(`src/app.py`).  Python strings are modelled as lists of Unicode code
points (`List Nat`); the helper `str` injects Lean string literals.
The TF-IDF vectorizer keeps its exact sufficient statistics
(vocabulary, document frequencies, document count, raw term counts);
the real-valued idf/cosine layer is built on top of them with `Real.log`
and `Real.sqrt`, mirroring scikit-learn's formulas.
-/

namespace Resumatch

/-- A Python string, as its sequence of Unicode code points. -/
abbrev PyStr := List Nat

/-- Code points of a Lean string literal. -/
def str (s : String) : PyStr := s.toList.map Char.toNat

/-- Python's whitespace class (`\s` for `str` patterns / `str.isspace`):
the ASCII whitespace characters together with the Unicode space
separators and the bidi separator controls. -/
def pyIsSpace (c : Nat) : Bool :=
  c == 32 || c == 9 || c == 10 || c == 11 || c == 12 || c == 13 ||
  c == 28 || c == 29 || c == 30 || c == 31 || c == 133 || c == 160 ||
  c == 5760 || (8192 ≤ c && c ≤ 8202) || c == 8232 || c == 8233 ||
  c == 8239 || c == 8287 || c == 12288

/-- `[a-zA-Z]`. -/
def isAsciiAlpha (c : Nat) : Bool :=
  (97 ≤ c && c ≤ 122) || (65 ≤ c && c ≤ 90)

/-- `[a-z]`. -/
def isLowerAlpha (c : Nat) : Bool :=
  97 ≤ c && c ≤ 122

/-- `str.lower`, restricted to ASCII.  `clean_text` applies it after all
characters outside `[a-zA-Z\s]` have been removed, so the non-ASCII
case mappings of Python's `str.lower` are never exercised. -/
def lowerChar (c : Nat) : Nat :=
  if 65 ≤ c ∧ c ≤ 90 then c + 32 else c

/-- After a `<`, try to consume `[^>]+>` (the rest of one match of the
pattern `<[^>]+>`): the maximal run of non-`>` characters, which must be
nonempty and must be closed by a `>`.  Returns the remainder of the
string after the match, or `none` if the pattern does not match here. -/
def tagRest (l : PyStr) : Option PyStr :=
  if (l.takeWhile (fun c => c != 62)).length = 0 then none
  else if (l.takeWhile (fun c => c != 62)).length = l.length then none
  else some (l.drop ((l.takeWhile (fun c => c != 62)).length + 1))

theorem tagRest_length {l r : PyStr} (h : tagRest l = some r) :
    r.length ≤ l.length := by
  unfold tagRest at h
  split at h
  · exact absurd h (by simp)
  · split at h
    · exact absurd h (by simp)
    · simp only [Option.some.injEq] at h
      subst h
      simp [List.length_drop]

/-- One scanning pass of `re.sub(r'<[^>]+>', ' ', text)` with explicit
fuel (structural recursion; with fuel at least the length of the string
the fuel never runs out, since every step consumes at least one
character). -/
def subHtmlF : Nat → PyStr → PyStr
  | _, [] => []
  | 0, l => l
  | fuel + 1, c :: rest =>
    if c = 60 then
      match tagRest rest with
      | some r => 32 :: subHtmlF fuel r
      | none => c :: subHtmlF fuel rest
    else c :: subHtmlF fuel rest

/-- `re.sub(r'<[^>]+>', ' ', text)`: leftmost non-overlapping matches of
`<[^>]+>` are each replaced by a single space. -/
def subHtml (l : PyStr) : PyStr := subHtmlF l.length l

/-- At the current position, try to match
`http\S+|www\S+|https\S+` (the `https` branch is subsumed by the `http`
one): a literal `http` (or `www`) followed by a nonempty maximal run of
non-whitespace characters.  Returns the remainder after the match. -/
def urlRest (l : PyStr) : Option PyStr :=
  if l.take 4 = [104, 116, 116, 112] then   -- "http"
    if ((l.drop 4).takeWhile (fun c => !(pyIsSpace c))).length = 0 then none
    else some ((l.drop 4).drop ((l.drop 4).takeWhile (fun c => !(pyIsSpace c))).length)
  else if l.take 3 = [119, 119, 119] then   -- "www"
    if ((l.drop 3).takeWhile (fun c => !(pyIsSpace c))).length = 0 then none
    else some ((l.drop 3).drop ((l.drop 3).takeWhile (fun c => !(pyIsSpace c))).length)
  else none

theorem urlRest_length {l r : PyStr} (h : urlRest l = some r) :
    r.length < l.length := by
  unfold urlRest at h
  split at h
  · rename_i h4
    have hlen : 4 ≤ l.length := by
      have h' := congrArg List.length h4
      simp only [List.length_take, List.length_cons, List.length_nil] at h'
      omega
    split at h
    · exact absurd h (by simp)
    · simp only [Option.some.injEq] at h
      subst h
      simp only [List.length_drop]
      omega
  · split at h
    · rename_i h3
      have hlen : 3 ≤ l.length := by
        have h' := congrArg List.length h3
        simp only [List.length_take, List.length_cons, List.length_nil] at h'
        omega
      split at h
      · exact absurd h (by simp)
      · simp only [Option.some.injEq] at h
        subst h
        simp only [List.length_drop]
        omega
    · exact absurd h (by simp)

/-- One scanning pass of `re.sub(r'http\S+|www\S+|https\S+', ' ', text)`
with explicit fuel. -/
def subUrlF : Nat → PyStr → PyStr
  | _, [] => []
  | 0, l => l
  | fuel + 1, c :: rest =>
    match urlRest (c :: rest) with
    | some r => 32 :: subUrlF fuel r
    | none => c :: subUrlF fuel rest

/-- `re.sub(r'http\S+|www\S+|https\S+', ' ', text)`. -/
def subUrl (l : PyStr) : PyStr := subUrlF l.length l

/-- `re.sub(r'[^a-zA-Z\s]', '', text)`: every character that is neither
an ASCII letter nor whitespace is deleted. -/
def onlyAlphaWS (l : PyStr) : PyStr :=
  l.filter (fun c => isAsciiAlpha c || pyIsSpace c)

/-- `re.sub(r'\s+', ' ', text)` as a left-to-right scan: `prev` records
whether the previous character was whitespace, so that each maximal
whitespace run is replaced by exactly one space. -/
def collapseWSAux (prev : Bool) : PyStr → PyStr
  | [] => []
  | c :: rest =>
    if pyIsSpace c then
      if prev then collapseWSAux true rest
      else 32 :: collapseWSAux true rest
    else c :: collapseWSAux false rest

/-- `re.sub(r'\s+', ' ', text)`: each maximal run of whitespace becomes
one space. -/
def collapseWS (l : PyStr) : PyStr := collapseWSAux false l

/-- `str.strip()`: remove leading and trailing whitespace
(`rdropWhile p m` is `(m.reverse.dropWhile p).reverse`). -/
def pyStrip (l : PyStr) : PyStr :=
  (l.dropWhile pyIsSpace).rdropWhile pyIsSpace

/-- `clean_text` (src/app.py:231-248): strip HTML-like tags, strip
URL-like tokens, drop non-alphabetic characters, collapse whitespace,
trim, and lowercase. -/
def clean_text (l : PyStr) : PyStr :=
  (pyStrip (collapseWS (onlyAlphaWS (subUrl (subHtml l))))).map lowerChar

/-! ### Shape of `clean_text` output -/

/-- No two adjacent characters are both a space. -/
def spacedOK (l : PyStr) : Prop :=
  List.Chain' (fun a b => ¬(a = 32 ∧ b = 32)) l

theorem pyIsSpace_32 : pyIsSpace 32 = true := by decide

theorem lowerChar_eq_32 {c : Nat} (h : lowerChar c = 32) : c = 32 := by
  unfold lowerChar at h
  split at h <;> omega

theorem collapseWSAux_nil (prev : Bool) : collapseWSAux prev [] = [] := rfl

theorem collapseWSAux_cons_pos_true {c : Nat} {rest : PyStr}
    (hc : pyIsSpace c = true) :
    collapseWSAux true (c :: rest) = collapseWSAux true rest := by
  show (if pyIsSpace c then _ else _) = _
  rw [if_pos hc, if_pos rfl]

theorem collapseWSAux_cons_pos_false {c : Nat} {rest : PyStr}
    (hc : pyIsSpace c = true) :
    collapseWSAux false (c :: rest) = 32 :: collapseWSAux true rest := by
  show (if pyIsSpace c then _ else _) = _
  rw [if_pos hc, if_neg (by simp)]

theorem collapseWSAux_cons_neg {c : Nat} {rest : PyStr} (prev : Bool)
    (hc : pyIsSpace c = false) :
    collapseWSAux prev (c :: rest) = c :: collapseWSAux false rest := by
  show (if pyIsSpace c then _ else _) = _
  rw [if_neg (by simp [hc])]

theorem mem_collapseWSAux {a : Nat} :
    ∀ (l : PyStr) (prev : Bool), a ∈ collapseWSAux prev l →
      a = 32 ∨ (a ∈ l ∧ pyIsSpace a = false) := by
  intro l
  induction l with
  | nil => intro prev h; simp [collapseWSAux_nil] at h
  | cons c rest ih =>
    intro prev h
    by_cases hc : pyIsSpace c = true
    · cases prev with
      | true =>
        rw [collapseWSAux_cons_pos_true hc] at h
        rcases ih true h with h32 | ⟨hmem, hns⟩
        · exact Or.inl h32
        · exact Or.inr ⟨List.mem_cons_of_mem _ hmem, hns⟩
      | false =>
        rw [collapseWSAux_cons_pos_false hc] at h
        rcases List.mem_cons.mp h with h32 | htail
        · exact Or.inl h32
        · rcases ih true htail with h32 | ⟨hmem, hns⟩
          · exact Or.inl h32
          · exact Or.inr ⟨List.mem_cons_of_mem _ hmem, hns⟩
    · rw [collapseWSAux_cons_neg prev (by simpa using hc)] at h
      rcases List.mem_cons.mp h with hac | htail
      · subst hac
        exact Or.inr ⟨List.mem_cons_self _ _, by simpa using hc⟩
      · rcases ih false htail with h32 | ⟨hmem, hns⟩
        · exact Or.inl h32
        · exact Or.inr ⟨List.mem_cons_of_mem _ hmem, hns⟩

/-- In the `prev = true` state the next emitted character is never
whitespace, and both states emit well-spaced output. -/
theorem collapseWSAux_spaced :
    ∀ l : PyStr,
      (∀ b, (collapseWSAux true l).head? = some b → pyIsSpace b = false) ∧
      spacedOK (collapseWSAux true l) ∧ spacedOK (collapseWSAux false l) := by
  intro l
  induction l with
  | nil =>
    refine ⟨?_, ?_, ?_⟩
    · intro b h; simp [collapseWSAux_nil] at h
    · simp [collapseWSAux_nil, spacedOK]
    · simp [collapseWSAux_nil, spacedOK]
  | cons c rest ih =>
    obtain ⟨ihhd, ihtrue, ihfalse⟩ := ih
    by_cases hc : pyIsSpace c = true
    · refine ⟨?_, ?_, ?_⟩
      · intro b h
        exact ihhd b ((collapseWSAux_cons_pos_true hc) ▸ h)
      · rw [collapseWSAux_cons_pos_true hc]; exact ihtrue
      · rw [collapseWSAux_cons_pos_false hc]
        refine List.chain'_cons'.mpr ⟨?_, ihtrue⟩
        intro y hy hpair
        have hns := ihhd y hy
        rw [hpair.2, pyIsSpace_32] at hns
        exact Bool.true_eq_false.mp hns
    · have hc' : pyIsSpace c = false := by simpa using hc
      have hchain : spacedOK (c :: collapseWSAux false rest) := by
        refine List.chain'_cons'.mpr ⟨?_, ihfalse⟩
        intro y _ hpair
        rw [hpair.1, pyIsSpace_32] at hc'
        exact Bool.true_eq_false.mp hc'
      refine ⟨?_, ?_, ?_⟩
      · intro b h
        rw [collapseWSAux_cons_neg true hc'] at h
        simp only [List.head?_cons, Option.some.injEq] at h
        exact h ▸ hc'
      · rw [collapseWSAux_cons_neg true hc']; exact hchain
      · rw [collapseWSAux_cons_neg false hc']; exact hchain

theorem spacedOK_collapseWS (l : PyStr) : spacedOK (collapseWS l) :=
  (collapseWSAux_spaced l).2.2

theorem spacedOK_pyStrip {l : PyStr} (h : spacedOK l) : spacedOK (pyStrip l) := by
  unfold pyStrip
  have hpre := List.rdropWhile_prefix pyIsSpace (l.dropWhile pyIsSpace)
  exact List.Chain'.prefix (h.suffix (List.dropWhile_suffix _)) hpre

theorem spacedOK_map_lowerChar {l : PyStr} (h : spacedOK l) :
    spacedOK (l.map lowerChar) := by
  refine (List.chain'_map _).mpr (h.imp ?_)
  intro a b hab hpair
  exact hab ⟨lowerChar_eq_32 hpair.1, lowerChar_eq_32 hpair.2⟩

/-- Every character of the cleaned text is a lowercase ASCII letter or a
space. -/
theorem clean_text_chars {l : PyStr} :
    ∀ c ∈ clean_text l, isLowerAlpha c = true ∨ c = 32 := by
  intro c hc
  unfold clean_text pyStrip at hc
  rcases List.mem_map.mp hc with ⟨b, hb, hbc⟩
  have hb' : b ∈ collapseWS (onlyAlphaWS (subUrl (subHtml l))) := by
    have hpre := List.rdropWhile_prefix pyIsSpace
      ((collapseWS (onlyAlphaWS (subUrl (subHtml l)))).dropWhile pyIsSpace)
    exact (List.dropWhile_suffix _).subset (hpre.subset hb)
  subst hbc
  rcases mem_collapseWSAux _ false hb' with h32 | ⟨hmem, hns⟩
  · subst h32; right; rfl
  · have hfil := List.mem_filter.mp hmem
    have halpha : isAsciiAlpha b = true := by
      rcases Bool.or_eq_true_iff.mp hfil.2 with h | h
      · exact h
      · rw [h] at hns; exact absurd hns (by simp)
    left
    unfold isAsciiAlpha at halpha
    unfold lowerChar isLowerAlpha
    rcases Bool.or_eq_true_iff.mp halpha with h | h
    · simp only [Bool.and_eq_true, decide_eq_true_eq] at h
      rw [if_neg (by omega)]
      simp only [Bool.and_eq_true, decide_eq_true_eq]
      omega
    · simp only [Bool.and_eq_true, decide_eq_true_eq] at h
      rw [if_pos (by omega)]
      simp only [Bool.and_eq_true, decide_eq_true_eq]
      omega

/-- The cleaned text never has two spaces in a row. -/
theorem clean_text_spaced (l : PyStr) : spacedOK (clean_text l) :=
  spacedOK_map_lowerChar (spacedOK_pyStrip (spacedOK_collapseWS _))

/-- The cleaned text does not start with a space. -/
theorem clean_text_head (l : PyStr) : (clean_text l).head? ≠ some 32 := by
  unfold clean_text pyStrip
  rw [List.head?_map]
  set X := collapseWS (onlyAlphaWS (subUrl (subHtml l))) with hX
  intro hmap
  cases hr : List.rdropWhile pyIsSpace (X.dropWhile pyIsSpace) with
  | nil => rw [hr] at hmap; simp at hmap
  | cons a s =>
    rw [hr] at hmap
    simp only [List.head?_cons, Option.map_some', Option.some.injEq] at hmap
    obtain ⟨t, ht⟩ := List.rdropWhile_prefix pyIsSpace (X.dropWhile pyIsSpace)
    rw [hr] at ht
    have hhd := List.head?_dropWhile_not pyIsSpace X
    rw [← ht] at hhd
    simp only [List.cons_append, List.head?_cons] at hhd
    have ha32 : a = 32 := lowerChar_eq_32 hmap
    rw [ha32, pyIsSpace_32] at hhd
    exact Bool.true_eq_false.mp hhd

/-- The cleaned text does not end with a space. -/
theorem clean_text_last (l : PyStr) : (clean_text l).getLast? ≠ some 32 := by
  unfold clean_text pyStrip
  rw [List.getLast?_map]
  set X := collapseWS (onlyAlphaWS (subUrl (subHtml l))) with hX
  intro hmap
  cases hr : List.rdropWhile pyIsSpace (X.dropWhile pyIsSpace) with
  | nil => rw [hr] at hmap; simp at hmap
  | cons a s =>
    have hne : List.rdropWhile pyIsSpace (X.dropWhile pyIsSpace) ≠ [] := by
      rw [hr]; simp
    have hlast := List.rdropWhile_last_not pyIsSpace (X.dropWhile pyIsSpace) hne
    have hsome := List.getLast?_eq_getLast _ hne
    rw [hsome] at hmap
    simp only [Option.map_some', Option.some.injEq] at hmap
    have h32 : _ = 32 := lowerChar_eq_32 hmap
    rw [h32] at hlast
    exact hlast pyIsSpace_32

/-! ### `clean_text` on its own output -/

/-- Does the string contain, at any position, a match of
`http\S+|www\S+|https\S+`? -/
def hasUrl : PyStr → Bool
  | [] => false
  | c :: rest => (urlRest (c :: rest)).isSome || hasUrl rest

theorem lowerAlpha_not_space {c : Nat} (h : isLowerAlpha c = true) :
    pyIsSpace c = false := by
  unfold isLowerAlpha at h
  simp only [Bool.and_eq_true, decide_eq_true_eq] at h
  apply Bool.eq_false_iff.mpr
  intro habs
  simp only [pyIsSpace, Bool.or_eq_true, beq_iff_eq, Bool.and_eq_true,
    decide_eq_true_eq] at habs
  omega

theorem subHtmlF_eq_self :
    ∀ (fuel : Nat) (l : PyStr), (∀ c ∈ l, c ≠ 60) → subHtmlF fuel l = l := by
  intro fuel
  induction fuel with
  | zero =>
    intro l _
    cases l with
    | nil => rfl
    | cons c rest => rfl
  | succ fuel ih =>
    intro l h
    cases l with
    | nil => rfl
    | cons c rest =>
      have hc : c ≠ 60 := h c (List.mem_cons_self c rest)
      show (if c = 60 then _ else c :: subHtmlF fuel rest) = c :: rest
      rw [if_neg hc, ih rest (fun d hd => h d (List.mem_cons_of_mem c hd))]

theorem subHtml_eq_self {l : PyStr} (h : ∀ c ∈ l, c ≠ 60) : subHtml l = l :=
  subHtmlF_eq_self l.length l h

theorem subUrlF_eq_self :
    ∀ (fuel : Nat) (l : PyStr), hasUrl l = false → subUrlF fuel l = l := by
  intro fuel
  induction fuel with
  | zero =>
    intro l _
    cases l with
    | nil => rfl
    | cons c rest => rfl
  | succ fuel ih =>
    intro l h
    cases l with
    | nil => rfl
    | cons c rest =>
      unfold hasUrl at h
      simp only [Bool.or_eq_false_iff] at h
      have hnone : urlRest (c :: rest) = none := by
        cases hu : urlRest (c :: rest) with
        | none => rfl
        | some r => rw [hu] at h; simp at h
      show (match urlRest (c :: rest) with
            | some r => 32 :: subUrlF fuel r
            | none => c :: subUrlF fuel rest) = c :: rest
      rw [hnone]
      show c :: subUrlF fuel rest = c :: rest
      rw [ih rest h.2]

theorem subUrl_eq_self {l : PyStr} (h : hasUrl l = false) : subUrl l = l :=
  subUrlF_eq_self l.length l h

theorem onlyAlphaWS_eq_self {l : PyStr}
    (h : ∀ c ∈ l, (isAsciiAlpha c || pyIsSpace c) = true) : onlyAlphaWS l = l :=
  List.filter_eq_self.mpr h

theorem collapseWSAux_eq_self :
    ∀ l : PyStr, (∀ c ∈ l, pyIsSpace c = true → c = 32) → spacedOK l →
      collapseWSAux false l = l ∧
      ((∀ b, l.head? = some b → pyIsSpace b = false) →
        collapseWSAux true l = l) := by
  intro l
  induction l with
  | nil => intro _ _; exact ⟨rfl, fun _ => rfl⟩
  | cons c rest ih =>
    intro h32 hsp
    have h32' : ∀ c ∈ rest, pyIsSpace c = true → c = 32 :=
      fun d hd => h32 d (List.mem_cons_of_mem c hd)
    have hsp' : spacedOK rest := hsp.tail
    obtain ⟨ihf, iht⟩ := ih h32' hsp'
    by_cases hc : pyIsSpace c = true
    · have hc32 : c = 32 := h32 c (List.mem_cons_self c rest) hc
      have hresthd : ∀ b, rest.head? = some b → pyIsSpace b = false := by
        intro b hb
        have hb32 : b ≠ 32 := by
          have hrel := List.chain'_cons'.mp hsp
          intro hb32eq
          exact hrel.1 b hb ⟨hc32, hb32eq⟩
        apply Bool.eq_false_iff.mpr
        intro habs
        exact hb32 (h32' b (List.mem_of_mem_head? (hb ▸ rfl)) habs)
      constructor
      · rw [collapseWSAux_cons_pos_false hc, iht hresthd, hc32]
      · intro hhd
        have := hhd c rfl
        rw [hc] at this
        exact absurd this (by simp)
    · have hc' : pyIsSpace c = false := by simpa using hc
      constructor
      · rw [collapseWSAux_cons_neg false hc', ihf]
      · intro _
        rw [collapseWSAux_cons_neg true hc', ihf]

theorem collapseWS_eq_self {l : PyStr}
    (h32 : ∀ c ∈ l, pyIsSpace c = true → c = 32) (hsp : spacedOK l) :
    collapseWS l = l :=
  (collapseWSAux_eq_self l h32 hsp).1

theorem pyStrip_eq_self {l : PyStr}
    (hh : ∀ b, l.head? = some b → pyIsSpace b = false)
    (hl : ∀ b, l.getLast? = some b → pyIsSpace b = false) :
    pyStrip l = l := by
  unfold pyStrip
  have h1 : l.dropWhile pyIsSpace = l := by
    cases l with
    | nil => rfl
    | cons c rest => exact List.dropWhile_cons_of_neg (by simp [hh c rfl])
  rw [h1, List.rdropWhile_eq_self_iff]
  intro hne
  have := hl (l.getLast hne) (List.getLast?_eq_getLast l hne)
  simp [this]

theorem map_lowerChar_eq_self {l : PyStr}
    (h : ∀ c ∈ l, isLowerAlpha c = true ∨ c = 32) : l.map lowerChar = l := by
  induction l with
  | nil => rfl
  | cons c rest ih =>
    simp only [List.map_cons]
    have hc := h c (List.mem_cons_self c rest)
    have hcl : lowerChar c = c := by
      unfold lowerChar
      rcases hc with h1 | h1
      · unfold isLowerAlpha at h1
        simp only [Bool.and_eq_true, decide_eq_true_eq] at h1
        rw [if_neg (by omega)]
      · subst h1; rw [if_neg (by omega)]
    rw [hcl, ih (fun d hd => h d (List.mem_cons_of_mem _ hd))]

/-- C2 (amended): `clean_text` is idempotent on every input whose
cleaned output contains no occurrence of `http`/`www` followed by a
non-whitespace character (i.e. no residual URL-pattern match).  A second
pass can differ only through the URL-stripping step, because the
punctuation-removal step may glue letters together into a fresh
`http...`/`www...` token. -/
theorem C2_clean_text_idem (t : PyStr)
    (h : hasUrl (clean_text t) = false) :
    clean_text (clean_text t) = clean_text t := by
  have chars : ∀ c ∈ clean_text t, isLowerAlpha c = true ∨ c = 32 :=
    clean_text_chars
  have hhd : ∀ b, (clean_text t).head? = some b → pyIsSpace b = false := by
    intro b hb
    rcases chars b (List.mem_of_mem_head? (hb ▸ rfl)) with hlow | h32
    · exact lowerAlpha_not_space hlow
    · rw [h32] at hb; exact absurd hb (clean_text_head t)
  have hlst : ∀ b, (clean_text t).getLast? = some b → pyIsSpace b = false := by
    intro b hb
    rcases chars b (List.mem_of_getLast?_eq_some hb) with hlow | h32
    · exact lowerAlpha_not_space hlow
    · rw [h32] at hb; exact absurd hb (clean_text_last t)
  have h1 : subHtml (clean_text t) = clean_text t := by
    apply subHtml_eq_self
    intro c hc h60
    rcases chars c hc with hlow | h32
    · unfold isLowerAlpha at hlow
      simp only [Bool.and_eq_true, decide_eq_true_eq] at hlow
      omega
    · omega
  have h2 : subUrl (clean_text t) = clean_text t := subUrl_eq_self h
  have h3 : onlyAlphaWS (clean_text t) = clean_text t := by
    apply onlyAlphaWS_eq_self
    intro c hc
    rcases chars c hc with hlow | h32
    · simp only [Bool.or_eq_true]
      left
      unfold isLowerAlpha at hlow
      simp only [Bool.and_eq_true, decide_eq_true_eq] at hlow
      unfold isAsciiAlpha
      simp only [Bool.or_eq_true, Bool.and_eq_true, decide_eq_true_eq]
      omega
    · rw [h32]; decide
  have h4 : collapseWS (clean_text t) = clean_text t := by
    apply collapseWS_eq_self
    · intro c hc hws
      rcases chars c hc with hlow | h32
      · rw [lowerAlpha_not_space hlow] at hws
        exact absurd hws (by simp)
      · exact h32
    · exact clean_text_spaced t
  have h5 : pyStrip (clean_text t) = clean_text t := pyStrip_eq_self hhd hlst
  have h6 : (clean_text t).map lowerChar = clean_text t :=
    map_lowerChar_eq_self chars
  show (pyStrip (collapseWS (onlyAlphaWS (subUrl (subHtml (clean_text t)))))).map
      lowerChar = clean_text t
  rw [h1, h2, h3, h4, h5, h6]

/-- C2 witness: a concrete input on which the amended idempotence
theorem applies. -/
theorem C2_clean_text_idem_witness :
    hasUrl (clean_text (str "Hello, World")) = false ∧
    clean_text (clean_text (str "Hello, World")) = clean_text (str "Hello, World") :=
  ⟨by decide, C2_clean_text_idem (str "Hello, World") (by decide)⟩

/-- C2 counterexample: `clean_text` is not idempotent as claimed.  On
`"htt!pfoo"` the first pass removes the `!` and produces `"httpfoo"`,
which the second pass then strips as a URL-like token, yielding `""`. -/
theorem C2_counterexample :
    clean_text (clean_text (str "htt!pfoo")) ≠ clean_text (str "htt!pfoo") ∧
    clean_text (str "htt!pfoo") = str "httpfoo" ∧
    clean_text (clean_text (str "htt!pfoo")) = [] := by
  refine ⟨by decide, by decide, by decide⟩

/-- C5: `clean_text` is total (a Lean function; the empty string maps to
the empty string) and its output contains only lowercase ASCII letters
and single separating spaces: no double spaces and no leading or
trailing space. -/
theorem C5_clean_text_shape :
    clean_text [] = [] ∧
    ∀ t : PyStr,
      (∀ c ∈ clean_text t, isLowerAlpha c = true ∨ c = 32) ∧
      spacedOK (clean_text t) ∧
      (clean_text t).head? ≠ some 32 ∧
      (clean_text t).getLast? ≠ some 32 :=
  ⟨rfl, fun t =>
    ⟨clean_text_chars, clean_text_spaced t, clean_text_head t,
      clean_text_last t⟩⟩

/-- C5 witness: the shape theorem instantiated on a concrete input. -/
theorem C5_clean_text_shape_witness :
    (isLowerAlpha 97 = true ∨ 97 = 32) ∧
    spacedOK (clean_text (str "Ab c")) ∧
    (clean_text (str "Ab c")).head? ≠ some 32 ∧
    (clean_text (str "Ab c")).getLast? ≠ some 32 :=
  ⟨(C5_clean_text_shape.2 (str "Ab c")).1 97 (by decide),
   (C5_clean_text_shape.2 (str "Ab c")).2.1,
   (C5_clean_text_shape.2 (str "Ab c")).2.2.1,
   (C5_clean_text_shape.2 (str "Ab c")).2.2.2⟩

/-! ### The scikit-learn `TfidfVectorizer`, as used by `app.py`

`TfidfVectorizer(preprocessor=None)` keeps all other defaults:
`lowercase=True`, `token_pattern=r"(?u)\b\w\w+\b"` (maximal runs of at
least two word characters), `smooth_idf=True`, `norm='l2'`,
`sublinear_tf=False`.  The fitted state is modelled by its exact
sufficient statistics — the sorted vocabulary, per-token document
frequencies and the document count — plus the raw per-document term
counts; the real-valued idf weighting, l2 normalisation and cosine are
applied in the real-valued layer below (cosine similarity is invariant
under the per-vector positive rescaling that l2 normalisation
performs). -/

/-- `\w` on the inputs reachable here (output of `clean_text`). -/
def isWordChar (c : Nat) : Bool :=
  isAsciiAlpha c || (48 ≤ c && c ≤ 57) || c == 95

/-- Split into maximal runs of word characters; `acc` is the current run
collected so far, in reverse. -/
def wordRunsAux (acc : PyStr) : PyStr → List PyStr
  | [] => if acc.isEmpty then [] else [acc.reverse]
  | c :: rest =>
    if isWordChar c then wordRunsAux (c :: acc) rest
    else if acc.isEmpty then wordRunsAux [] rest
    else acc.reverse :: wordRunsAux [] rest

def wordRuns (l : PyStr) : List PyStr := wordRunsAux [] l

/-- The default analyzer: lowercase, then keep the maximal word-character
runs of length at least 2. -/
def sk_tokenize (l : PyStr) : List PyStr :=
  (wordRuns (l.map lowerChar)).filter (fun w => 2 ≤ w.length)

/-- Lexicographic order on code-point strings (scikit-learn sorts its
vocabulary). -/
def lexLt : PyStr → PyStr → Bool
  | [], [] => false
  | [], _ :: _ => true
  | _ :: _, [] => false
  | a :: as, b :: bs => if a < b then true else if b < a then false else lexLt as bs

def insertSortedDedup (w : PyStr) : List PyStr → List PyStr
  | [] => [w]
  | v :: rest =>
    if w = v then v :: rest
    else if lexLt w v then w :: v :: rest
    else v :: insertSortedDedup w rest

/-- Sorted list of the distinct strings occurring in `ws`. -/
def sortDedup (ws : List PyStr) : List PyStr :=
  ws.foldl (fun acc w => insertSortedDedup w acc) []

/-- Fitted vectorizer state: vocabulary, document frequencies (one per
vocabulary entry) and number of fitted documents — the statistics that
determine the smoothed idf vector
`ln((1 + nDocs)/(1 + df)) + 1`. -/
structure FittedVectorizer where
  vocab : List PyStr
  df : List Nat
  nDocs : Nat
deriving DecidableEq

/-- The statistics `TfidfVectorizer.fit_transform` computes when it
succeeds: the fitted state together with the raw term-count matrix
(one row per document, one column per vocabulary entry).  The call
itself can raise; `sk_fit?` below is the callable form. -/
def sk_fit (texts : List PyStr) : FittedVectorizer × List (List Nat) :=
  let toks := texts.map sk_tokenize
  let vocab := sortDedup toks.flatten
  (⟨vocab,
    vocab.map (fun w => (toks.filter (fun d => d.contains w)).length),
    texts.length⟩,
   toks.map (fun d => vocab.map (fun w => d.count w)))

/-- `TfidfVectorizer.transform` on a single document: its term counts
over the fitted vocabulary (tokens outside the vocabulary are ignored
and do not extend it). -/
def sk_transform (v : FittedVectorizer) (text : PyStr) : List Nat :=
  v.vocab.map (fun w => (sk_tokenize text).count w)

theorem sk_fit_rows_length (texts : List PyStr) :
    (sk_fit texts).2.length = texts.length := by
  unfold sk_fit
  simp

/-- `TfidfVectorizer.fit_transform` as actually callable: scikit-learn
raises `ValueError("empty vocabulary; perhaps the documents only
contain stop words")` when the fitted vocabulary comes out empty, i.e.
when no document contains a run of two or more word characters.
`none` models that raised error. -/
def sk_fit? (texts : List PyStr) : Option (FittedVectorizer × List (List Nat)) :=
  if (sk_fit texts).1.vocab.isEmpty then none else some (sk_fit texts)

theorem sk_fit?_nil : sk_fit? [] = none := rfl

theorem sk_fit?_eq_sk_fit {texts : List PyStr}
    {f : FittedVectorizer × List (List Nat)}
    (h : sk_fit? texts = some f) : f = sk_fit texts := by
  unfold sk_fit? at h
  split at h
  · exact Option.noConfusion h
  · exact (Option.some.inj h).symm

/-! ### Data model and the global cache -/

/-- A row of the `Job` table. -/
structure JobRow where
  id : Int
  title : PyStr
  description : PyStr
  url : Option PyStr
deriving DecidableEq, Inhabited

/-- A row of the `Resume` table. -/
structure ResumeRow where
  id : Int
  category : PyStr
  resume_text : PyStr
deriving DecidableEq, Inhabited

/-- The database contents at the time `load_data` runs. -/
structure DB where
  jobs : List JobRow
  resumes : List ResumeRow
deriving DecidableEq

/-- One entry of `DATA_CACHE["jobs"]`. -/
structure CachedJob where
  id : Int
  title : PyStr
  description : PyStr
  url : Option PyStr
deriving DecidableEq, Inhabited

/-- One entry of `DATA_CACHE["resumes"]`. -/
structure CachedResume where
  id : Int
  category : PyStr
  text : PyStr
deriving DecidableEq, Inhabited

/-- `DATA_CACHE` (src/app.py:53-60). -/
structure DataCache where
  jobs : List CachedJob
  resumes : List CachedResume
  job_vectorizer : Option FittedVectorizer
  resume_vectorizer : Option FittedVectorizer
  job_matrix : Option (List (List Nat))
  resume_matrix : Option (List (List Nat))
deriving DecidableEq

/-- The startup value of `DATA_CACHE`. -/
def DATA_CACHE_init : DataCache := ⟨[], [], none, none, none, none⟩

def jobData (db : DB) : List CachedJob :=
  db.jobs.map (fun j => ⟨j.id, j.title, j.description, j.url⟩)

def jobTexts (db : DB) : List PyStr :=
  db.jobs.map (fun j => clean_text j.description)

def resumeData (db : DB) : List CachedResume :=
  db.resumes.map (fun r => ⟨r.id, r.category, r.resume_text⟩)

def resumeTexts (db : DB) : List PyStr :=
  db.resumes.map (fun r => clean_text r.resume_text)

/-- The jobs section of `load_data` (src/app.py:72-105): store the job
dicts, then — only if there is at least one job — call `fit_transform`
and store vectorizer and matrix.  When `fit_transform` raises the
empty-vocabulary `ValueError`, the section's `try/except`
(src/app.py:73, 105) catches it after the job-dict assignment (line 91)
but before the vectorizer and matrix assignments (lines 96-97), so
those two keys keep their previous values.  Returns the list of cache
states after each of the successive `DATA_CACHE[...] = ...`
assignments, together with the final state. -/
def jobPhase (db : DB) (cache : DataCache) : List DataCache × DataCache :=
  let c1 : DataCache := { cache with jobs := jobData db }
  if (jobTexts db).isEmpty then ([c1], c1)
  else
    match sk_fit? (jobTexts db) with
    | none => ([c1], c1)
    | some f =>
      let c2 : DataCache := { c1 with job_vectorizer := some f.1 }
      let c3 : DataCache := { c2 with job_matrix := some f.2 }
      ([c1, c2, c3], c3)

/-- The resumes section of `load_data` (src/app.py:109-139), with the
same `try/except` structure as the jobs section. -/
def resumePhase (db : DB) (cache : DataCache) : List DataCache × DataCache :=
  let c1 : DataCache := { cache with resumes := resumeData db }
  if (resumeTexts db).isEmpty then ([c1], c1)
  else
    match sk_fit? (resumeTexts db) with
    | none => ([c1], c1)
    | some f =>
      let c2 : DataCache := { c1 with resume_vectorizer := some f.1 }
      let c3 : DataCache := { c2 with resume_matrix := some f.2 }
      ([c1, c2, c3], c3)

/-- `load_data` (src/app.py:62-139) as a cache transformer: jobs
section, then resumes section.  When a section's corpus is empty only
the document list is assigned, and when its `fit_transform` raises the
empty-vocabulary `ValueError` (nonempty but token-less corpus) the
`except` swallows the error after the document-list assignment; in
both cases the previous vectorizer and matrix of that section are left
in place. -/
def load_data (db : DB) (cache : DataCache) : DataCache :=
  (resumePhase db (jobPhase db cache).2).2

/-- Every cache state observable while `load_data` runs: the initial
state followed by the state after each single `DATA_CACHE[...] = ...`
assignment, in program order. -/
def loadSteps (db : DB) (cache : DataCache) : List DataCache :=
  cache :: (jobPhase db cache).1 ++ (resumePhase db (jobPhase db cache).2).1

/-! ### Phase equations

Each `load_data` section has exactly two observable outcomes: either
the fit is skipped (empty corpus) or raises and is swallowed by the
`except` (token-less corpus) — in both cases only the document list is
assigned — or the fit succeeds and vectorizer and matrix are assigned
as well. -/

theorem jobPhase_skip {db : DB} (cache : DataCache)
    (h : sk_fit? (jobTexts db) = none) :
    jobPhase db cache =
      ([{ cache with jobs := jobData db }],
       { cache with jobs := jobData db }) := by
  unfold jobPhase
  by_cases he : (jobTexts db).isEmpty = true
  · rw [if_pos he]
  · rw [if_neg he, h]

theorem jobPhase_fit {db : DB} (cache : DataCache)
    {f : FittedVectorizer × List (List Nat)}
    (h : sk_fit? (jobTexts db) = some f) :
    jobPhase db cache =
      ([{ cache with jobs := jobData db },
        { cache with jobs := jobData db, job_vectorizer := some f.1 },
        { cache with
            jobs := jobData db
            job_vectorizer := some f.1
            job_matrix := some f.2 }],
       { cache with
            jobs := jobData db
            job_vectorizer := some f.1
            job_matrix := some f.2 }) := by
  have hne : ¬((jobTexts db).isEmpty = true) := by
    intro he
    rw [List.isEmpty_iff.mp he, sk_fit?_nil] at h
    exact Option.noConfusion h
  unfold jobPhase
  rw [if_neg hne, h]

theorem resumePhase_skip {db : DB} (cache : DataCache)
    (h : sk_fit? (resumeTexts db) = none) :
    resumePhase db cache =
      ([{ cache with resumes := resumeData db }],
       { cache with resumes := resumeData db }) := by
  unfold resumePhase
  by_cases he : (resumeTexts db).isEmpty = true
  · rw [if_pos he]
  · rw [if_neg he, h]

theorem resumePhase_fit {db : DB} (cache : DataCache)
    {f : FittedVectorizer × List (List Nat)}
    (h : sk_fit? (resumeTexts db) = some f) :
    resumePhase db cache =
      ([{ cache with resumes := resumeData db },
        { cache with resumes := resumeData db, resume_vectorizer := some f.1 },
        { cache with
            resumes := resumeData db
            resume_vectorizer := some f.1
            resume_matrix := some f.2 }],
       { cache with
            resumes := resumeData db
            resume_vectorizer := some f.1
            resume_matrix := some f.2 }) := by
  have hne : ¬((resumeTexts db).isEmpty = true) := by
    intro he
    rw [List.isEmpty_iff.mp he, sk_fit?_nil] at h
    exact Option.noConfusion h
  unfold resumePhase
  rw [if_neg hne, h]

theorem load_data_jobs (db : DB) (cache : DataCache) :
    (load_data db cache).jobs = jobData db := by
  unfold load_data
  cases hfj : sk_fit? (jobTexts db) <;>
    cases hfr : sk_fit? (resumeTexts db) <;>
    first
      | rw [jobPhase_skip cache hfj, resumePhase_skip _ hfr]
      | rw [jobPhase_skip cache hfj, resumePhase_fit _ hfr]
      | rw [jobPhase_fit cache hfj, resumePhase_skip _ hfr]
      | rw [jobPhase_fit cache hfj, resumePhase_fit _ hfr]

theorem load_data_resumes (db : DB) (cache : DataCache) :
    (load_data db cache).resumes = resumeData db := by
  unfold load_data
  cases hfj : sk_fit? (jobTexts db) <;>
    cases hfr : sk_fit? (resumeTexts db) <;>
    first
      | rw [jobPhase_skip cache hfj, resumePhase_skip _ hfr]
      | rw [jobPhase_skip cache hfj, resumePhase_fit _ hfr]
      | rw [jobPhase_fit cache hfj, resumePhase_skip _ hfr]
      | rw [jobPhase_fit cache hfj, resumePhase_fit _ hfr]

theorem load_data_job_fit_some (db : DB) (cache : DataCache)
    {f : FittedVectorizer × List (List Nat)}
    (hf : sk_fit? (jobTexts db) = some f) :
    (load_data db cache).job_vectorizer = some f.1 ∧
    (load_data db cache).job_matrix = some f.2 ∧
    f.2.length = db.jobs.length := by
  have hlen : f.2.length = db.jobs.length := by
    rw [sk_fit?_eq_sk_fit hf, sk_fit_rows_length]
    unfold jobTexts
    simp
  unfold load_data
  cases hfr : sk_fit? (resumeTexts db) with
  | none =>
    rw [jobPhase_fit cache hf, resumePhase_skip _ hfr]
    exact ⟨rfl, rfl, hlen⟩
  | some g =>
    rw [jobPhase_fit cache hf, resumePhase_fit _ hfr]
    exact ⟨rfl, rfl, hlen⟩

theorem load_data_job_fit_none (db : DB) (cache : DataCache)
    (hf : sk_fit? (jobTexts db) = none) :
    (load_data db cache).job_vectorizer = cache.job_vectorizer ∧
    (load_data db cache).job_matrix = cache.job_matrix := by
  unfold load_data
  cases hfr : sk_fit? (resumeTexts db) with
  | none =>
    rw [jobPhase_skip cache hf, resumePhase_skip _ hfr]
    exact ⟨rfl, rfl⟩
  | some g =>
    rw [jobPhase_skip cache hf, resumePhase_fit _ hfr]
    exact ⟨rfl, rfl⟩

theorem load_data_resume_fit_some (db : DB) (cache : DataCache)
    {f : FittedVectorizer × List (List Nat)}
    (hf : sk_fit? (resumeTexts db) = some f) :
    (load_data db cache).resume_vectorizer = some f.1 ∧
    (load_data db cache).resume_matrix = some f.2 ∧
    f.2.length = db.resumes.length := by
  have hlen : f.2.length = db.resumes.length := by
    rw [sk_fit?_eq_sk_fit hf, sk_fit_rows_length]
    unfold resumeTexts
    simp
  unfold load_data
  cases hfj : sk_fit? (jobTexts db) with
  | none =>
    rw [jobPhase_skip cache hfj, resumePhase_fit _ hf]
    exact ⟨rfl, rfl, hlen⟩
  | some g =>
    rw [jobPhase_fit cache hfj, resumePhase_fit _ hf]
    exact ⟨rfl, rfl, hlen⟩

theorem load_data_resume_fit_none (db : DB) (cache : DataCache)
    (hf : sk_fit? (resumeTexts db) = none) :
    (load_data db cache).resume_vectorizer = cache.resume_vectorizer ∧
    (load_data db cache).resume_matrix = cache.resume_matrix := by
  unfold load_data
  cases hfj : sk_fit? (jobTexts db) with
  | none =>
    rw [jobPhase_skip cache hfj, resumePhase_skip _ hf]
    exact ⟨rfl, rfl⟩
  | some g =>
    rw [jobPhase_fit cache hfj, resumePhase_skip _ hf]
    exact ⟨rfl, rfl⟩

/-! ### C1: cache rebuild semantics -/

/-- C1 (amended): after `load_data` the cached document lists always
mirror the new corpus.  When a section's fit succeeds — the corpus is
nonempty and at least one document yields a 2+-character token — the
cached vectorizer (vocabulary, document frequencies and document count,
hence the idf weights) and matrix are exactly the ones fitted on the
new corpus, with one matrix row per new document.  When the fit is
never reached (empty corpus) or raises the empty-vocabulary
`ValueError` (nonempty but token-less corpus, swallowed by the
section's `except`), the previous corpus's vectorizer and matrix
survive in the cache. -/
theorem C1_load_data_rebuild (db : DB) (cache : DataCache) :
    (load_data db cache).jobs = jobData db ∧
    (load_data db cache).resumes = resumeData db ∧
    (∀ f, sk_fit? (jobTexts db) = some f →
      (load_data db cache).job_vectorizer = some f.1 ∧
      (load_data db cache).job_matrix = some f.2 ∧
      f.2.length = db.jobs.length) ∧
    (sk_fit? (jobTexts db) = none →
      (load_data db cache).job_vectorizer = cache.job_vectorizer ∧
      (load_data db cache).job_matrix = cache.job_matrix) ∧
    (∀ f, sk_fit? (resumeTexts db) = some f →
      (load_data db cache).resume_vectorizer = some f.1 ∧
      (load_data db cache).resume_matrix = some f.2 ∧
      f.2.length = db.resumes.length) ∧
    (sk_fit? (resumeTexts db) = none →
      (load_data db cache).resume_vectorizer = cache.resume_vectorizer ∧
      (load_data db cache).resume_matrix = cache.resume_matrix) :=
  ⟨load_data_jobs db cache,
   load_data_resumes db cache,
   fun _ hf => load_data_job_fit_some db cache hf,
   fun hf => load_data_job_fit_none db cache hf,
   fun _ hf => load_data_resume_fit_some db cache hf,
   fun hf => load_data_resume_fit_none db cache hf⟩

/-! Concrete corpora for the counterexamples and witnesses. -/

def dbA : DB := ⟨[], [⟨1, str "one", str "aa bb"⟩]⟩
def dbB : DB := ⟨[], [⟨2, str "two", str "cc dd"⟩]⟩
def dbEmpty : DB := ⟨[], []⟩

/-- A nonempty corpus whose only document normalizes to a token-less
string: `clean_text "123"` is empty, so fitting raises the
empty-vocabulary `ValueError`. -/
def dbT : DB := ⟨[], [⟨7, str "seven", str "123"⟩]⟩

def cacheA : DataCache := load_data dbA DATA_CACHE_init

/-- C1 counterexample: rebuilding with an empty corpus — or with a
nonempty corpus whose only document yields no token, so that
`fit_transform` raises and the `except` swallows the error — keeps the
previous corpus's vectorizer and matrix in the cache. -/
theorem C1_counterexample :
    ((load_data dbEmpty cacheA).resumes = [] ∧
     (load_data dbEmpty cacheA).resume_vectorizer = cacheA.resume_vectorizer ∧
     (load_data dbEmpty cacheA).resume_matrix = cacheA.resume_matrix) ∧
    ((load_data dbT cacheA).resumes = resumeData dbT ∧
     (load_data dbT cacheA).resumes ≠ [] ∧
     (load_data dbT cacheA).resume_vectorizer = cacheA.resume_vectorizer ∧
     (load_data dbT cacheA).resume_matrix = cacheA.resume_matrix) ∧
    cacheA.resume_vectorizer ≠ none ∧
    cacheA.resume_matrix ≠ none := by
  decide

/-- C1 witness: the rebuild theorem applied to a corpus whose fit
succeeds (vectorizer and matrix rebuilt) and to the empty and
token-less corpora (the old vectorizer survives). -/
theorem C1_witness :
    (load_data dbA DATA_CACHE_init).resumes = resumeData dbA ∧
    (load_data dbA DATA_CACHE_init).resume_vectorizer =
      some (sk_fit (resumeTexts dbA)).1 ∧
    (load_data dbEmpty cacheA).resume_vectorizer = cacheA.resume_vectorizer ∧
    (load_data dbT cacheA).resume_vectorizer = cacheA.resume_vectorizer :=
  ⟨(C1_load_data_rebuild dbA DATA_CACHE_init).2.1,
   ((C1_load_data_rebuild dbA DATA_CACHE_init).2.2.2.2.1
      (sk_fit (resumeTexts dbA)) (by decide)).1,
   ((C1_load_data_rebuild dbEmpty cacheA).2.2.2.2.2 (by decide)).1,
   ((C1_load_data_rebuild dbT cacheA).2.2.2.2.2 (by decide)).1⟩

/-! ### C8: what a concurrent reader can observe during a rebuild -/

/-- C8 (amended): the cache states observable during `load_data` are the
initial state followed by the state after each single per-key
assignment; each observable state agrees, field by field, with either
the old cache or the final rebuilt one (no single field is ever torn),
and the last observable state is the cache `load_data` leaves behind —
which keeps the previous vectorizer and matrix of any section whose
corpus was empty or whose refit raised the empty-vocabulary error.  The
intermediate states themselves, however, can mix old and new fields. -/
theorem C8_load_steps (db : DB) (cache : DataCache) :
    (loadSteps db cache).getLast? = some (load_data db cache) ∧
    ∀ s ∈ loadSteps db cache,
      (s.jobs = cache.jobs ∨ s.jobs = (load_data db cache).jobs) ∧
      (s.resumes = cache.resumes ∨ s.resumes = (load_data db cache).resumes) ∧
      (s.job_vectorizer = cache.job_vectorizer ∨
        s.job_vectorizer = (load_data db cache).job_vectorizer) ∧
      (s.resume_vectorizer = cache.resume_vectorizer ∨
        s.resume_vectorizer = (load_data db cache).resume_vectorizer) ∧
      (s.job_matrix = cache.job_matrix ∨
        s.job_matrix = (load_data db cache).job_matrix) ∧
      (s.resume_matrix = cache.resume_matrix ∨
        s.resume_matrix = (load_data db cache).resume_matrix) := by
  unfold loadSteps load_data
  cases hfj : sk_fit? (jobTexts db) with
  | none =>
    rw [jobPhase_skip cache hfj]
    cases hfr : sk_fit? (resumeTexts db) with
    | none =>
      rw [resumePhase_skip _ hfr]
      refine ⟨by simp, ?_⟩
      intro s hs
      simp at hs
      rcases hs with rfl | rfl | rfl <;> simp
    | some g =>
      rw [resumePhase_fit _ hfr]
      refine ⟨by simp, ?_⟩
      intro s hs
      simp at hs
      rcases hs with rfl | rfl | rfl | rfl | rfl <;> simp
  | some f =>
    rw [jobPhase_fit cache hfj]
    cases hfr : sk_fit? (resumeTexts db) with
    | none =>
      rw [resumePhase_skip _ hfr]
      refine ⟨by simp, ?_⟩
      intro s hs
      simp at hs
      rcases hs with rfl | rfl | rfl | rfl | rfl <;> simp
    | some g =>
      rw [resumePhase_fit _ hfr]
      refine ⟨by simp, ?_⟩
      intro s hs
      simp at hs
      rcases hs with rfl | rfl | rfl | rfl | rfl | rfl | rfl <;> simp

/-- C8 counterexample: during a rebuild that replaces corpus A by corpus
B, a reader can observe the mixed state whose resume list already comes
from corpus B while the resume vectorizer and matrix still come from
corpus A — a state equal to neither the old snapshot nor the new one. -/
theorem C8_counterexample :
    { cacheA with resumes := resumeData dbB } ∈ loadSteps dbB cacheA ∧
    { cacheA with resumes := resumeData dbB } ≠ cacheA ∧
    { cacheA with resumes := resumeData dbB } ≠ load_data dbB cacheA := by
  decide

/-- C8 witness: the step-enumeration theorem applied to the concrete
rebuild, at the mixed intermediate state. -/
theorem C8_witness :
    (loadSteps dbB cacheA).getLast? = some (load_data dbB cacheA) ∧
    ({ cacheA with resumes := resumeData dbB }.resumes = cacheA.resumes ∨
     { cacheA with resumes := resumeData dbB }.resumes =
       (load_data dbB cacheA).resumes) ∧
    ({ cacheA with resumes := resumeData dbB }.resume_matrix = cacheA.resume_matrix ∨
     { cacheA with resumes := resumeData dbB }.resume_matrix =
       (load_data dbB cacheA).resume_matrix) :=
  ⟨(C8_load_steps dbB cacheA).1,
   ((C8_load_steps dbB cacheA).2 _ (by decide)).2.1,
   ((C8_load_steps dbB cacheA).2 _ (by decide)).2.2.2.2.2⟩

/-! ### Real-valued tf-idf and cosine layer

scikit-learn with `smooth_idf=True` uses
`idf = ln((1 + nDocs)/(1 + df)) + 1`; each document row and the
transformed query are l2-normalised, and `cosine_similarity` again
divides by the norms, so the similarity equals the cosine of the raw
tf-idf count vectors, with the zero-norm guard yielding 0. -/

noncomputable def idfR (nDocs df : Nat) : ℝ :=
  Real.log ((1 + (nDocs : ℝ)) / (1 + (df : ℝ))) + 1

/-- The tf-idf weight vector of a term-count vector. -/
noncomputable def tfidfVec (v : FittedVectorizer) (counts : List Nat) : List ℝ :=
  (counts.zip v.df).map (fun p => (p.1 : ℝ) * idfR v.nDocs p.2)

noncomputable def dotR (x y : List ℝ) : ℝ :=
  ((x.zip y).map (fun p => p.1 * p.2)).sum

open Classical in
/-- Cosine similarity; 0 (not an error) when either vector has zero
norm, as `sklearn.preprocessing.normalize` maps zero rows to zero. -/
noncomputable def cosSim (x y : List ℝ) : ℝ :=
  if dotR x x = 0 ∨ dotR y y = 0 then 0
  else dotR x y / (Real.sqrt (dotR x x) * Real.sqrt (dotR y y))

open Classical in
/-- Round-half-to-even to an integer (Python's `round`). -/
noncomputable def roundHalfEven (x : ℝ) : ℤ :=
  if x - ⌊x⌋ < 1/2 then ⌊x⌋
  else if 1/2 < x - ⌊x⌋ then ⌊x⌋ + 1
  else if Even ⌊x⌋ then ⌊x⌋ else ⌊x⌋ + 1

/-- `round(score * 100, 2)`: the similarity on the 0-100 scale, rounded
to two decimal places, as an exact rational. -/
noncomputable def pyRound2 (s : ℝ) : ℚ :=
  (roundHalfEven (s * 10000) : ℚ) / 100

theorem roundHalfEven_eq {n : ℤ} {x : ℝ} (h1 : (n : ℝ) - 1/2 < x)
    (h2 : x < (n : ℝ) + 1/2) : roundHalfEven x = n := by
  unfold roundHalfEven
  by_cases hx : x < (n : ℝ)
  · have hfl : ⌊x⌋ = n - 1 := by
      apply Int.floor_eq_iff.mpr
      constructor
      · push_cast; linarith
      · push_cast; linarith
    rw [hfl]
    rw [if_neg (by push_cast; linarith)]
    rw [if_pos (by push_cast; linarith)]
    omega
  · have hfl : ⌊x⌋ = n := by
      apply Int.floor_eq_iff.mpr
      constructor
      · linarith
      · push_cast; linarith
    rw [hfl]
    rw [if_pos (by linarith)]

theorem idfR_self (n : Nat) : idfR n n = 1 := by
  unfold idfR
  rw [div_self (by positivity), Real.log_one]
  ring

/-! ### The match pipeline shared by both routes -/

/-- A scored resume match dict (src/app.py:335-340): id, category as
`name`, truncated text, and the rounded percentage score. -/
structure ScoredResume where
  id : Int
  name : PyStr
  text : PyStr
  score : ℚ
deriving DecidableEq

/-- A scored job match dict (src/app.py:383-389). -/
structure ScoredJob where
  id : Int
  title : PyStr
  description : PyStr
  url : Option PyStr
  score : ℚ
deriving DecidableEq

open Classical in
/-- `for i, score in enumerate(cosine_sim): if score > 0: append(mk i score)`
starting at index `i`. -/
noncomputable def scoreLoop {β : Type} (mk : Nat → ℝ → β) : Nat → List ℝ → List β
  | _, [] => []
  | i, s :: rest =>
    if 0 < s then mk i s :: scoreLoop mk (i + 1) rest
    else scoreLoop mk (i + 1) rest

/-- Insert `a` after every element whose key is at least `key a` —
one step of Python's stable `sorted(key=..., reverse=True)`. -/
def insertDesc {β : Type} (key : β → ℚ) (a : β) : List β → List β
  | [] => [a]
  | b :: rest => if key b < key a then a :: b :: rest else b :: insertDesc key a rest

/-- Python's `sorted(..., key=..., reverse=True)`: stable descending
sort by key. -/
def sortDesc {β : Type} (key : β → ℚ) (l : List β) : List β :=
  l.foldl (fun acc a => insertDesc key a acc) []

/-! ### The two match routes -/

/-- The cache-refresh guard of the employer route (src/app.py:311-313):
reload when the resume vectorizer or matrix is absent. -/
def routeCacheResume (db : DB) (cache : DataCache) : DataCache :=
  if cache.resume_vectorizer = none ∨ cache.resume_matrix = none
  then load_data db cache else cache

/-- The cache-refresh guard of the job-seeker route (src/app.py:366-367). -/
def routeCacheJob (db : DB) (cache : DataCache) : DataCache :=
  if cache.job_vectorizer = none ∨ cache.job_matrix = none
  then load_data db cache else cache

/-- The employer route's per-document cosine similarities
(src/app.py:319-324): the cleaned query is projected into the cached
resume vector space and scored against every cached resume row. -/
noncomputable def employerSims (db : DB) (cache : DataCache) (queryText : PyStr) :
    List ℝ :=
  match (routeCacheResume db cache).resume_vectorizer,
        (routeCacheResume db cache).resume_matrix with
  | some v, some m =>
    m.map (fun row =>
      cosSim (tfidfVec v (sk_transform v (clean_text queryText))) (tfidfVec v row))
  | _, _ => []

/-- One scored-resume dict (src/app.py:335-340). -/
noncomputable def mkScoredResume (docs : List CachedResume) (i : Nat) (s : ℝ) :
    ScoredResume :=
  ⟨(docs.getD i default).id, (docs.getD i default).category,
   (docs.getD i default).text.take 200 ++ str "...", pyRound2 s⟩

/-- The employer route's match list (src/app.py:302-345): empty when the
cached resume list is empty; otherwise the positively-scored documents,
with rounded scores, stably sorted by descending rounded score and
truncated to three. -/
noncomputable def employer_matches (db : DB) (cache : DataCache) (queryText : PyStr) :
    List ScoredResume :=
  if (routeCacheResume db cache).resumes.isEmpty then []
  else
    (sortDesc (fun x => x.score)
      (scoreLoop (mkScoredResume (routeCacheResume db cache).resumes) 0
        (employerSims db cache queryText))).take 3

/-- The job-seeker route's per-document cosine similarities
(src/app.py:373-376). -/
noncomputable def jobSeekerSims (db : DB) (cache : DataCache) (queryText : PyStr) :
    List ℝ :=
  match (routeCacheJob db cache).job_vectorizer,
        (routeCacheJob db cache).job_matrix with
  | some v, some m =>
    m.map (fun row =>
      cosSim (tfidfVec v (sk_transform v (clean_text queryText))) (tfidfVec v row))
  | _, _ => []

/-- One scored-job dict (src/app.py:383-389). -/
noncomputable def mkScoredJob (docs : List CachedJob) (i : Nat) (s : ℝ) :
    ScoredJob :=
  ⟨(docs.getD i default).id, (docs.getD i default).title,
   (docs.getD i default).description.take 200 ++ str "...",
   (docs.getD i default).url, pyRound2 s⟩

/-- The job-seeker route's match list (src/app.py:357-394). -/
noncomputable def job_seeker_matches (db : DB) (cache : DataCache) (queryText : PyStr) :
    List ScoredJob :=
  if (routeCacheJob db cache).jobs.isEmpty then []
  else
    (sortDesc (fun x => x.score)
      (scoreLoop (mkScoredJob (routeCacheJob db cache).jobs) 0
        (jobSeekerSims db cache queryText))).take 3

/-! ### Sorting and scoring pipeline lemmas -/

theorem mem_insertDesc {β : Type} (key : β → ℚ) (a x : β) :
    ∀ l : List β, x ∈ insertDesc key a l ↔ x = a ∨ x ∈ l := by
  intro l
  induction l with
  | nil => simp [insertDesc]
  | cons b rest ih =>
    unfold insertDesc
    split
    · simp
    · simp only [List.mem_cons, ih]
      tauto

theorem mem_sortDesc {β : Type} (key : β → ℚ) (x : β) (l : List β) :
    x ∈ sortDesc key l ↔ x ∈ l := by
  have key_fold : ∀ (l acc : List β),
      (x ∈ l.foldl (fun acc a => insertDesc key a acc) acc ↔ x ∈ acc ∨ x ∈ l) := by
    intro l
    induction l with
    | nil => intro acc; simp
    | cons a rest ih =>
      intro acc
      simp only [List.foldl_cons, ih, mem_insertDesc, List.mem_cons]
      tauto
  unfold sortDesc
  rw [key_fold]
  simp

theorem pairwise_insertDesc {β : Type} (key : β → ℚ) (a : β) :
    ∀ l : List β, List.Pairwise (fun u w => key w ≤ key u) l →
      List.Pairwise (fun u w => key w ≤ key u) (insertDesc key a l) := by
  intro l
  induction l with
  | nil => intro _; simp [insertDesc]
  | cons b rest ih =>
    intro h
    rcases List.pairwise_cons.mp h with ⟨hb, hrest⟩
    unfold insertDesc
    split
    · rename_i hlt
      refine List.pairwise_cons.mpr ⟨?_, h⟩
      intro w hw
      rcases List.mem_cons.mp hw with rfl | hw'
      · exact le_of_lt hlt
      · exact le_trans (hb w hw') (le_of_lt hlt)
    · rename_i hge
      refine List.pairwise_cons.mpr ⟨?_, ih hrest⟩
      intro w hw
      rcases (mem_insertDesc key a w rest).mp hw with rfl | hw'
      · exact le_of_not_lt hge
      · exact hb w hw'

theorem pairwise_sortDesc {β : Type} (key : β → ℚ) (l : List β) :
    List.Pairwise (fun u w => key w ≤ key u) (sortDesc key l) := by
  have key_fold : ∀ (l acc : List β),
      List.Pairwise (fun u w => key w ≤ key u) acc →
      List.Pairwise (fun u w => key w ≤ key u)
        (l.foldl (fun acc a => insertDesc key a acc) acc) := by
    intro l
    induction l with
    | nil => intro acc h; simpa using h
    | cons a rest ih =>
      intro acc h
      simp only [List.foldl_cons]
      exact ih _ (pairwise_insertDesc key a acc h)
  exact key_fold l [] List.Pairwise.nil

/-- Elements whose key is below the head of a descending-sorted list do
not occur among keys equal to `k` further down. -/
theorem filter_eq_nil_of_lt {β : Type} (key : β → ℚ) {k : ℚ} :
    ∀ l : List β, List.Pairwise (fun u w => key w ≤ key u) l →
      (∀ b, b ∈ l.head? → key b < k) →
      l.filter (fun x => decide (key x = k)) = [] := by
  intro l
  induction l with
  | nil => intro _ _; rfl
  | cons b rest ih =>
    intro h hb
    rcases List.pairwise_cons.mp h with ⟨hble, hrest⟩
    have hbk : key b < k := hb b rfl
    rw [List.filter_cons_of_neg (by simp; exact ne_of_lt hbk)]
    apply ih hrest
    intro w hw
    have hwmem : w ∈ rest := List.mem_of_mem_head? hw
    exact lt_of_le_of_lt (hble w hwmem) hbk

theorem filter_insertDesc {β : Type} (key : β → ℚ) (a : β) (k : ℚ) :
    ∀ l : List β, List.Pairwise (fun u w => key w ≤ key u) l →
      (insertDesc key a l).filter (fun x => decide (key x = k)) =
        if key a = k
        then l.filter (fun x => decide (key x = k)) ++ [a]
        else l.filter (fun x => decide (key x = k)) := by
  intro l
  induction l with
  | nil =>
    intro _
    by_cases hk : key a = k
    · rw [if_pos hk]
      simp [insertDesc, hk]
    · rw [if_neg hk]
      simp [insertDesc, hk]
  | cons b rest ih =>
    intro h
    rcases List.pairwise_cons.mp h with ⟨hble, hrest⟩
    unfold insertDesc
    split
    · rename_i hlt
      by_cases hk : key a = k
      · rw [if_pos hk]
        rw [List.filter_cons_of_pos (by simp [hk])]
        have hnil : (b :: rest).filter (fun x => decide (key x = k)) = [] := by
          apply filter_eq_nil_of_lt key _ h
          intro w hw
          simp only [List.head?_cons, Option.mem_def, Option.some.injEq] at hw
          rw [← hw, ← hk]
          exact hlt
        rw [hnil]
        rfl
      · rw [if_neg hk]
        rw [List.filter_cons_of_neg (by simp [hk])]
    · rename_i hge
      by_cases hbk : key b = k
      · rw [List.filter_cons_of_pos (by simp [hbk]), List.filter_cons_of_pos (by simp [hbk])]
        rw [ih hrest]
        by_cases hk : key a = k
        · rw [if_pos hk, if_pos hk]
          rfl
        · rw [if_neg hk, if_neg hk]
      · rw [List.filter_cons_of_neg (by simp [hbk]), List.filter_cons_of_neg (by simp [hbk])]
        rw [ih hrest]

/-- Stability of the descending sort: among entries with any fixed key,
the sorted output preserves the input order exactly. -/
theorem sortDesc_stable {β : Type} (key : β → ℚ) (l : List β) (k : ℚ) :
    (sortDesc key l).filter (fun x => decide (key x = k)) =
      l.filter (fun x => decide (key x = k)) := by
  have key_fold : ∀ (l acc : List β),
      List.Pairwise (fun u w => key w ≤ key u) acc →
      (l.foldl (fun acc a => insertDesc key a acc) acc).filter
          (fun x => decide (key x = k)) =
        acc.filter (fun x => decide (key x = k)) ++
          l.filter (fun x => decide (key x = k)) := by
    intro l
    induction l with
    | nil => intro acc _; simp
    | cons a rest ih =>
      intro acc h
      simp only [List.foldl_cons]
      rw [ih _ (pairwise_insertDesc key a acc h)]
      rw [filter_insertDesc key a k acc h]
      by_cases hk : key a = k
      · rw [if_pos hk, List.filter_cons_of_pos (by simp [hk])]
        simp
      · rw [if_neg hk, List.filter_cons_of_neg (by simp [hk])]
  unfold sortDesc
  rw [key_fold l [] List.Pairwise.nil]
  rfl

theorem mem_scoreLoop {β : Type} (mk : Nat → ℝ → β) :
    ∀ (sims : List ℝ) (i : Nat) (b : β), b ∈ scoreLoop mk i sims →
      ∃ j s, sims.get? j = some s ∧ 0 < s ∧ b = mk (i + j) s := by
  intro sims
  induction sims with
  | nil => intro i b h; simp [scoreLoop] at h
  | cons s rest ih =>
    intro i b h
    unfold scoreLoop at h
    split at h
    · rename_i hs
      rcases List.mem_cons.mp h with rfl | htail
      · exact ⟨0, s, rfl, hs, by simp⟩
      · rcases ih (i + 1) b htail with ⟨j, s', hg, hpos, hb⟩
        exact ⟨j + 1, s', by simpa using hg, hpos, by rw [hb]; ring_nf⟩
    · rcases ih (i + 1) b h with ⟨j, s', hg, hpos, hb⟩
      exact ⟨j + 1, s', by simpa using hg, hpos, by rw [hb]; ring_nf⟩

theorem scoreLoop_eq_nil {β : Type} (mk : Nat → ℝ → β) :
    ∀ (sims : List ℝ) (i : Nat), (∀ s ∈ sims, s ≤ 0) → scoreLoop mk i sims = [] := by
  intro sims
  induction sims with
  | nil => intro i _; rfl
  | cons s rest ih =>
    intro i h
    unfold scoreLoop
    rw [if_neg (not_lt_of_le (h s (List.mem_cons_self s rest)))]
    exact ih (i + 1) (fun w hw => h w (List.mem_cons_of_mem s hw))

/-! ### Route-level lemmas -/

/-- C6: if the corpus for the requested corpus identifier is empty after
a rebuild, `match` returns the empty list (no error). -/
theorem C6_empty_corpus (db : DB) (cache : DataCache) (q : PyStr) :
    (db.resumes = [] → employer_matches db (load_data db cache) q = []) ∧
    (db.jobs = [] → job_seeker_matches db (load_data db cache) q = []) := by
  constructor
  · intro h
    have hres : ∀ c, routeCacheResume db c = c ∨ routeCacheResume db c = load_data db c := by
      intro c
      unfold routeCacheResume
      split
      · right; rfl
      · left; rfl
    have hempty : (routeCacheResume db (load_data db cache)).resumes = [] := by
      rcases hres (load_data db cache) with hc | hc <;>
        rw [hc, load_data_resumes] <;>
        simp [resumeData, h]
    unfold employer_matches
    rw [if_pos (by rw [hempty]; rfl)]
  · intro h
    have hres : ∀ c, routeCacheJob db c = c ∨ routeCacheJob db c = load_data db c := by
      intro c
      unfold routeCacheJob
      split
      · right; rfl
      · left; rfl
    have hempty : (routeCacheJob db (load_data db cache)).jobs = [] := by
      rcases hres (load_data db cache) with hc | hc <;>
        rw [hc, load_data_jobs] <;>
        simp [jobData, h]
    unfold job_seeker_matches
    rw [if_pos (by rw [hempty]; rfl)]

/-- C6 witness. -/
theorem C6_empty_corpus_witness :
    employer_matches dbEmpty (load_data dbEmpty DATA_CACHE_init) (str "aa") = [] ∧
    job_seeker_matches dbEmpty (load_data dbEmpty DATA_CACHE_init) (str "aa") = [] :=
  ⟨(C6_empty_corpus dbEmpty DATA_CACHE_init (str "aa")).1 (by decide),
   (C6_empty_corpus dbEmpty DATA_CACHE_init (str "aa")).2 (by decide)⟩

/-! ### C7: zero-norm or vocabulary-miss query -/

theorem sk_transform_zero {v : FittedVectorizer} {t : PyStr}
    (h : ∀ w ∈ v.vocab, w ∉ sk_tokenize t) :
    ∀ n ∈ sk_transform v t, n = 0 := by
  intro n hn
  unfold sk_transform at hn
  rcases List.mem_map.mp hn with ⟨w, hw, hcount⟩
  rw [← hcount]
  exact List.count_eq_zero.mpr (h w hw)

theorem tfidfVec_zero {v : FittedVectorizer} {counts : List Nat}
    (h : ∀ n ∈ counts, n = 0) : ∀ x ∈ tfidfVec v counts, x = 0 := by
  intro x hx
  unfold tfidfVec at hx
  rcases List.mem_map.mp hx with ⟨p, hp, hpx⟩
  have hp1 : p.1 ∈ counts := (List.of_mem_zip hp).1
  rw [← hpx, h p.1 hp1]
  simp

theorem dotR_self_zero {x : List ℝ} (h : ∀ a ∈ x, a = 0) : dotR x x = 0 := by
  unfold dotR
  apply List.sum_eq_zero
  intro w hw
  rcases List.mem_map.mp hw with ⟨p, hp, hpw⟩
  rw [← hpw, h p.1 (List.of_mem_zip hp).1]
  ring

theorem cosSim_zero_left {x y : List ℝ} (h : dotR x x = 0) : cosSim x y = 0 := by
  unfold cosSim
  rw [if_pos (Or.inl h)]

/-- C7: a query that normalizes to the empty string, or that shares no
token with the fitted vocabulary, receives similarity 0.0 against every
cached document (a zero-norm query vector is not an error) and the match
list is therefore empty after the positive-score filter. -/
theorem C7_zero_similarity (db : DB) (cache : DataCache) (q : PyStr) :
    ((clean_text q = [] ∨
      ∀ v, (routeCacheResume db cache).resume_vectorizer = some v →
        ∀ w ∈ v.vocab, w ∉ sk_tokenize (clean_text q)) →
      (∀ s ∈ employerSims db cache q, s = 0) ∧
      employer_matches db cache q = []) ∧
    ((clean_text q = [] ∨
      ∀ v, (routeCacheJob db cache).job_vectorizer = some v →
        ∀ w ∈ v.vocab, w ∉ sk_tokenize (clean_text q)) →
      (∀ s ∈ jobSeekerSims db cache q, s = 0) ∧
      job_seeker_matches db cache q = []) := by
  constructor
  · intro h
    have hsims : ∀ s ∈ employerSims db cache q, s = 0 := by
      intro s hs
      unfold employerSims at hs
      split at hs
      · rename_i v m hv hm
        rcases List.mem_map.mp hs with ⟨row, _, hrow⟩
        have hmiss : ∀ w ∈ v.vocab, w ∉ sk_tokenize (clean_text q) := by
          rcases h with hempty | hv'
          · intro w _ hwmem
            rw [hempty] at hwmem
            simp [sk_tokenize, wordRuns, wordRunsAux] at hwmem
          · exact hv' v hv
        rw [← hrow]
        exact cosSim_zero_left
          (dotR_self_zero (tfidfVec_zero (sk_transform_zero hmiss)))
      · simp at hs
    refine ⟨hsims, ?_⟩
    unfold employer_matches
    split
    · rfl
    · rw [scoreLoop_eq_nil _ _ _ (fun s hs => le_of_eq (hsims s hs))]
      rfl
  · intro h
    have hsims : ∀ s ∈ jobSeekerSims db cache q, s = 0 := by
      intro s hs
      unfold jobSeekerSims at hs
      split at hs
      · rename_i v m hv hm
        rcases List.mem_map.mp hs with ⟨row, _, hrow⟩
        have hmiss : ∀ w ∈ v.vocab, w ∉ sk_tokenize (clean_text q) := by
          rcases h with hempty | hv'
          · intro w _ hwmem
            rw [hempty] at hwmem
            simp [sk_tokenize, wordRuns, wordRunsAux] at hwmem
          · exact hv' v hv
        rw [← hrow]
        exact cosSim_zero_left
          (dotR_self_zero (tfidfVec_zero (sk_transform_zero hmiss)))
      · simp at hs
    refine ⟨hsims, ?_⟩
    unfold job_seeker_matches
    split
    · rfl
    · rw [scoreLoop_eq_nil _ _ _ (fun s hs => le_of_eq (hsims s hs))]
      rfl

/-! ### C3 (amended) and C4: ordering and bounds of the match list -/

/-- C3 (amended): each candidate's score is rounded to the two-decimal
0-100 scale when the candidate list is built, and the candidates are
then stably sorted by descending *rounded* score and truncated to three.
Hence the output is sorted by descending rounded score, and among
candidates with the same rounded score the corpus insertion order is
preserved exactly (the filter clause). -/
theorem C3_match_ordering (db : DB) (cache : DataCache) (q : PyStr) :
    List.Pairwise (fun a b => b.score ≤ a.score) (employer_matches db cache q) ∧
    List.Pairwise (fun a b => b.score ≤ a.score) (job_seeker_matches db cache q) ∧
    (∀ k : ℚ,
      (sortDesc (fun x : ScoredResume => x.score)
        (scoreLoop (mkScoredResume (routeCacheResume db cache).resumes) 0
          (employerSims db cache q))).filter (fun x => decide (x.score = k)) =
      (scoreLoop (mkScoredResume (routeCacheResume db cache).resumes) 0
        (employerSims db cache q)).filter (fun x => decide (x.score = k))) ∧
    (∀ k : ℚ,
      (sortDesc (fun x : ScoredJob => x.score)
        (scoreLoop (mkScoredJob (routeCacheJob db cache).jobs) 0
          (jobSeekerSims db cache q))).filter (fun x => decide (x.score = k)) =
      (scoreLoop (mkScoredJob (routeCacheJob db cache).jobs) 0
        (jobSeekerSims db cache q)).filter (fun x => decide (x.score = k))) := by
  refine ⟨?_, ?_, ?_, ?_⟩
  · unfold employer_matches
    split
    · exact List.Pairwise.nil
    · exact List.Pairwise.sublist (List.take_sublist 3 _) (pairwise_sortDesc _ _)
  · unfold job_seeker_matches
    split
    · exact List.Pairwise.nil
    · exact List.Pairwise.sublist (List.take_sublist 3 _) (pairwise_sortDesc _ _)
  · intro k; exact sortDesc_stable _ _ k
  · intro k; exact sortDesc_stable _ _ k

/-- Every element of the employer match list arises from an index with
strictly positive similarity. -/
theorem employer_matches_mem {db : DB} {cache : DataCache} {q : PyStr}
    {m : ScoredResume} (hm : m ∈ employer_matches db cache q) :
    ∃ j s, (employerSims db cache q).get? j = some s ∧ 0 < s ∧
      m = mkScoredResume (routeCacheResume db cache).resumes j s := by
  unfold employer_matches at hm
  split at hm
  · simp at hm
  · have hm' : m ∈ sortDesc (fun x : ScoredResume => x.score)
        (scoreLoop (mkScoredResume (routeCacheResume db cache).resumes) 0
          (employerSims db cache q)) :=
      (List.take_sublist 3 _).subset hm
    have hm'' := (mem_sortDesc _ _ _).mp hm'
    rcases mem_scoreLoop _ _ 0 m hm'' with ⟨j, s, hg, hpos, hmk⟩
    exact ⟨j, s, hg, hpos, by simpa using hmk⟩

/-- Every element of the job-seeker match list arises from an index with
strictly positive similarity. -/
theorem job_seeker_matches_mem {db : DB} {cache : DataCache} {q : PyStr}
    {m : ScoredJob} (hm : m ∈ job_seeker_matches db cache q) :
    ∃ j s, (jobSeekerSims db cache q).get? j = some s ∧ 0 < s ∧
      m = mkScoredJob (routeCacheJob db cache).jobs j s := by
  unfold job_seeker_matches at hm
  split at hm
  · simp at hm
  · have hm' : m ∈ sortDesc (fun x : ScoredJob => x.score)
        (scoreLoop (mkScoredJob (routeCacheJob db cache).jobs) 0
          (jobSeekerSims db cache q)) :=
      (List.take_sublist 3 _).subset hm
    have hm'' := (mem_sortDesc _ _ _).mp hm'
    rcases mem_scoreLoop _ _ 0 m hm'' with ⟨j, s, hg, hpos, hmk⟩
    exact ⟨j, s, hg, hpos, by simpa using hmk⟩

/-- C4: `match` never returns more than three results, and every
returned element was built from a document whose raw cosine similarity
is strictly positive (an exact-zero similarity is filtered out, not
merely ranked last). -/
theorem C4_match_bound (db : DB) (cache : DataCache) (q : PyStr) :
    (employer_matches db cache q).length ≤ 3 ∧
    (job_seeker_matches db cache q).length ≤ 3 ∧
    (∀ m ∈ employer_matches db cache q, ∃ j s,
      (employerSims db cache q).get? j = some s ∧ 0 < s ∧
      m = mkScoredResume (routeCacheResume db cache).resumes j s) ∧
    (∀ m ∈ job_seeker_matches db cache q, ∃ j s,
      (jobSeekerSims db cache q).get? j = some s ∧ 0 < s ∧
      m = mkScoredJob (routeCacheJob db cache).jobs j s) := by
  refine ⟨?_, ?_, fun m hm => employer_matches_mem hm,
    fun m hm => job_seeker_matches_mem hm⟩
  · unfold employer_matches
    split
    · simp
    · exact List.length_take_le 3 _
  · unfold job_seeker_matches
    split
    · simp
    · exact List.length_take_le 3 _

/-! ### C10: shape of the returned fields -/

/-- A cache state the running app can hold with each fitted space in
step with its document list: the startup value, or the result of a
`load_data` whose sections each either saw an empty corpus or fitted
successfully.  (After a swallowed `fit_transform` error the cache
pairs the new document list with the stale previous space; a request
against such a state that scores a matrix row with no stored document
behind it dies with an uncaught `IndexError` inside the scoring loop
instead of returning anything, so no returned match ever draws on
such a row.) -/
def ReachableCache (cache : DataCache) : Prop :=
  cache = DATA_CACHE_init ∨
  ∃ db0 c0, cache = load_data db0 c0 ∧
    (db0.jobs = [] ∨ sk_fit? (jobTexts db0) ≠ none) ∧
    (db0.resumes = [] ∨ sk_fit? (resumeTexts db0) ≠ none)

/-- On any cache the app can hold in step, the employer route either
has no fitted resume space (hence an empty similarity vector) or a
resume matrix with exactly one row per cached resume. -/
theorem routeCacheResume_wf {db : DB} {cache : DataCache}
    (hc : ReachableCache cache)
    (hne : (routeCacheResume db cache).resumes ≠ []) :
    (routeCacheResume db cache).resume_vectorizer = none ∨
    (routeCacheResume db cache).resume_matrix = none ∨
    ∃ m, (routeCacheResume db cache).resume_matrix = some m ∧
      m.length = (routeCacheResume db cache).resumes.length := by
  revert hne
  unfold routeCacheResume
  split
  · rename_i hguard
    intro hne
    cases hf : sk_fit? (resumeTexts db) with
    | none =>
      obtain ⟨h1, h2⟩ := load_data_resume_fit_none db cache hf
      rcases hguard with hv | hm
      · exact Or.inl (h1.trans hv)
      · exact Or.inr (Or.inl (h2.trans hm))
    | some f =>
      obtain ⟨h1, h2, h3⟩ := load_data_resume_fit_some db cache hf
      refine Or.inr (Or.inr ⟨f.2, h2, ?_⟩)
      rw [load_data_resumes]
      simpa [resumeData] using h3
  · rename_i hguard
    intro hne
    push_neg at hguard
    rcases hc with rfl | ⟨db0, c0, rfl, hjc, hrc⟩
    · exact absurd rfl hguard.1
    · rcases hrc with hdb0 | hfit
      · refine absurd ?_ hne
        rw [load_data_resumes]
        simp [resumeData, hdb0]
      · cases hf : sk_fit? (resumeTexts db0) with
        | none => exact absurd hf hfit
        | some f =>
          obtain ⟨h1, h2, h3⟩ := load_data_resume_fit_some db0 c0 hf
          refine Or.inr (Or.inr ⟨f.2, h2, ?_⟩)
          rw [load_data_resumes]
          simpa [resumeData] using h3

/-- Job-side analogue of `routeCacheResume_wf`. -/
theorem routeCacheJob_wf {db : DB} {cache : DataCache}
    (hc : ReachableCache cache)
    (hne : (routeCacheJob db cache).jobs ≠ []) :
    (routeCacheJob db cache).job_vectorizer = none ∨
    (routeCacheJob db cache).job_matrix = none ∨
    ∃ m, (routeCacheJob db cache).job_matrix = some m ∧
      m.length = (routeCacheJob db cache).jobs.length := by
  revert hne
  unfold routeCacheJob
  split
  · rename_i hguard
    intro hne
    cases hf : sk_fit? (jobTexts db) with
    | none =>
      obtain ⟨h1, h2⟩ := load_data_job_fit_none db cache hf
      rcases hguard with hv | hm
      · exact Or.inl (h1.trans hv)
      · exact Or.inr (Or.inl (h2.trans hm))
    | some f =>
      obtain ⟨h1, h2, h3⟩ := load_data_job_fit_some db cache hf
      refine Or.inr (Or.inr ⟨f.2, h2, ?_⟩)
      rw [load_data_jobs]
      simpa [jobData] using h3
  · rename_i hguard
    intro hne
    push_neg at hguard
    rcases hc with rfl | ⟨db0, c0, rfl, hjc, hrc⟩
    · exact absurd rfl hguard.1
    · rcases hjc with hdb0 | hfit
      · refine absurd ?_ hne
        rw [load_data_jobs]
        simp [jobData, hdb0]
      · cases hf : sk_fit? (jobTexts db0) with
        | none => exact absurd hf hfit
        | some f =>
          obtain ⟨h1, h2, h3⟩ := load_data_job_fit_some db0 c0 hf
          refine Or.inr (Or.inr ⟨f.2, h2, ?_⟩)
          rw [load_data_jobs]
          simpa [jobData] using h3

/-- The employer similarity vector is either empty (no fitted space) or
the cosine of the query against each row of the cached matrix. -/
theorem employerSims_spec (db : DB) (cache : DataCache) (q : PyStr) :
    employerSims db cache q = [] ∨
    ∃ v m0, (routeCacheResume db cache).resume_vectorizer = some v ∧
      (routeCacheResume db cache).resume_matrix = some m0 ∧
      employerSims db cache q = m0.map (fun row =>
        cosSim (tfidfVec v (sk_transform v (clean_text q))) (tfidfVec v row)) := by
  unfold employerSims
  cases hv : (routeCacheResume db cache).resume_vectorizer with
  | none =>
    cases hm : (routeCacheResume db cache).resume_matrix <;> exact Or.inl rfl
  | some v =>
    cases hm : (routeCacheResume db cache).resume_matrix with
    | none => exact Or.inl rfl
    | some m0 => exact Or.inr ⟨v, m0, rfl, rfl, rfl⟩

theorem jobSeekerSims_spec (db : DB) (cache : DataCache) (q : PyStr) :
    jobSeekerSims db cache q = [] ∨
    ∃ v m0, (routeCacheJob db cache).job_vectorizer = some v ∧
      (routeCacheJob db cache).job_matrix = some m0 ∧
      jobSeekerSims db cache q = m0.map (fun row =>
        cosSim (tfidfVec v (sk_transform v (clean_text q))) (tfidfVec v row)) := by
  unfold jobSeekerSims
  cases hv : (routeCacheJob db cache).job_vectorizer with
  | none =>
    cases hm : (routeCacheJob db cache).job_matrix <;> exact Or.inl rfl
  | some v =>
    cases hm : (routeCacheJob db cache).job_matrix with
    | none => exact Or.inl rfl
    | some m0 => exact Or.inr ⟨v, m0, rfl, rfl, rfl⟩

/-- C10: every returned match carries the stored id and label unchanged,
while its text field is the first 200 characters of the stored body with
the literal `"..."` appended — also when the body is shorter than 200
characters. -/
theorem C10_result_fields (db : DB) (cache : DataCache) (q : PyStr)
    (hc : ReachableCache cache) :
    (∀ m ∈ employer_matches db cache q,
      ∃ r ∈ (routeCacheResume db cache).resumes,
        m.id = r.id ∧ m.name = r.category ∧
        m.text = r.text.take 200 ++ str "...") ∧
    (∀ m ∈ job_seeker_matches db cache q,
      ∃ jr ∈ (routeCacheJob db cache).jobs,
        m.id = jr.id ∧ m.title = jr.title ∧ m.url = jr.url ∧
        m.description = jr.description.take 200 ++ str "...") := by
  constructor
  · intro m hm
    have hne : (routeCacheResume db cache).resumes ≠ [] := by
      intro hnil
      unfold employer_matches at hm
      rw [if_pos (by rw [hnil]; rfl)] at hm
      simp at hm
    rcases employer_matches_mem hm with ⟨j, s, hg, _, hmk⟩
    obtain ⟨hjlt, _⟩ := List.get?_eq_some.mp hg
    rcases employerSims_spec db cache q with hnil | ⟨v, m0', hv, hm0', hmap⟩
    · rw [hnil] at hg; simp at hg
    · rcases routeCacheResume_wf hc hne with hvn | hmn | ⟨m0, hm0, hlen⟩
      · rw [hvn] at hv; exact Option.noConfusion hv
      · rw [hmn] at hm0'; exact Option.noConfusion hm0'
      · have hm0eq : m0' = m0 := by
          rw [hm0] at hm0'
          exact (Option.some.inj hm0').symm
        rw [hmap, List.length_map, hm0eq, hlen] at hjlt
        refine ⟨(routeCacheResume db cache).resumes.get ⟨j, hjlt⟩,
          List.get_mem _ _ _, ?_, ?_, ?_⟩ <;>
          rw [hmk] <;>
          unfold mkScoredResume <;>
          rw [List.getD_eq_get?, List.get?_eq_get hjlt] <;>
          rfl
  · intro m hm
    have hne : (routeCacheJob db cache).jobs ≠ [] := by
      intro hnil
      unfold job_seeker_matches at hm
      rw [if_pos (by rw [hnil]; rfl)] at hm
      simp at hm
    rcases job_seeker_matches_mem hm with ⟨j, s, hg, _, hmk⟩
    obtain ⟨hjlt, _⟩ := List.get?_eq_some.mp hg
    rcases jobSeekerSims_spec db cache q with hnil | ⟨v, m0', hv, hm0', hmap⟩
    · rw [hnil] at hg; simp at hg
    · rcases routeCacheJob_wf hc hne with hvn | hmn | ⟨m0, hm0, hlen⟩
      · rw [hvn] at hv; exact Option.noConfusion hv
      · rw [hmn] at hm0'; exact Option.noConfusion hm0'
      · have hm0eq : m0' = m0 := by
          rw [hm0] at hm0'
          exact (Option.some.inj hm0').symm
        rw [hmap, List.length_map, hm0eq, hlen] at hjlt
        refine ⟨(routeCacheJob db cache).jobs.get ⟨j, hjlt⟩,
          List.get_mem _ _ _, ?_, ?_, ?_, ?_⟩ <;>
          rw [hmk] <;>
          unfold mkScoredJob <;>
          rw [List.getD_eq_get?, List.get?_eq_get hjlt] <;>
          rfl

/-! ### C9: uploaded files are removed after processing

The boundary layer of both POST handlers (src/app.py:292-345 and
347-394), modelled by its observable file-system effects.  `pypdf` /
the text reader are external collaborators: extraction is modelled as
reading back the saved content.  werkzeug's `secure_filename` is also
external; the cleanup contract is independent of the exact name
transformation, so it is modelled as the identity. -/

inductive FileAction where
  | save (path : PyStr)
  | remove (path : PyStr)
deriving DecidableEq

structure UploadedFile where
  filename : PyStr
  content : PyStr

def secure_filename (name : PyStr) : PyStr := name

/-- The employer POST handler: reject a missing or unnamed file; for a
`.txt` file, save it, extract and clean its text, compute the match
list (empty when the cached resume corpus is empty), and remove the
saved file on every path.  Returns the rendered match list together
with the file actions performed, in program order. -/
noncomputable def employerPost (db : DB) (cache : DataCache)
    (upload : Option UploadedFile) : List ScoredResume × List FileAction :=
  match upload with
  | none => ([], [])
  | some f =>
    if f.filename = [] then ([], [])
    else if (str ".txt").isSuffixOf f.filename then
      if (routeCacheResume db cache).resumes.isEmpty then
        ([], [FileAction.save (secure_filename f.filename),
              FileAction.remove (secure_filename f.filename)])
      else
        (employer_matches db cache f.content,
         [FileAction.save (secure_filename f.filename),
          FileAction.remove (secure_filename f.filename)])
    else ([], [])

/-- The job-seeker POST handler (`.pdf` uploads). -/
noncomputable def jobSeekerPost (db : DB) (cache : DataCache)
    (upload : Option UploadedFile) : List ScoredJob × List FileAction :=
  match upload with
  | none => ([], [])
  | some f =>
    if f.filename = [] then ([], [])
    else if (str ".pdf").isSuffixOf f.filename then
      if (routeCacheJob db cache).jobs.isEmpty then
        ([], [FileAction.save (secure_filename f.filename),
              FileAction.remove (secure_filename f.filename)])
      else
        (job_seeker_matches db cache f.content,
         [FileAction.save (secure_filename f.filename),
          FileAction.remove (secure_filename f.filename)])
    else ([], [])

/-- C9: every uploaded file accepted for processing is saved and then
removed, on both the empty-result and the nonempty-result path. -/
theorem C9_file_cleanup (db : DB) (cache : DataCache) (f : UploadedFile) :
    (f.filename ≠ [] → (str ".txt").isSuffixOf f.filename = true →
      (employerPost db cache (some f)).2 =
        [FileAction.save (secure_filename f.filename),
         FileAction.remove (secure_filename f.filename)]) ∧
    (f.filename ≠ [] → (str ".pdf").isSuffixOf f.filename = true →
      (jobSeekerPost db cache (some f)).2 =
        [FileAction.save (secure_filename f.filename),
         FileAction.remove (secure_filename f.filename)]) := by
  constructor
  · intro hne hsuf
    unfold employerPost
    dsimp only
    rw [if_neg hne, if_pos hsuf]
    split <;> rfl
  · intro hne hsuf
    unfold jobSeekerPost
    dsimp only
    rw [if_neg hne, if_pos hsuf]
    split <;> rfl

/-- C9 witness: a concrete accepted upload on each route. -/
theorem C9_file_cleanup_witness :
    (employerPost dbEmpty DATA_CACHE_init (some ⟨str "a.txt", str "aa"⟩)).2 =
      [FileAction.save (str "a.txt"), FileAction.remove (str "a.txt")] ∧
    (jobSeekerPost dbEmpty DATA_CACHE_init (some ⟨str "b.pdf", str "aa"⟩)).2 =
      [FileAction.save (str "b.pdf"), FileAction.remove (str "b.pdf")] :=
  ⟨(C9_file_cleanup dbEmpty DATA_CACHE_init ⟨str "a.txt", str "aa"⟩).1
      (by decide) (by decide),
   (C9_file_cleanup dbEmpty DATA_CACHE_init ⟨str "b.pdf", str "aa"⟩).2
      (by decide) (by decide)⟩

/-! ### A concrete two-resume corpus with distinct raw similarities that
round to the same displayed score

Query `"aa bb*7"` (term counts (1,7)) against resume `rX` with counts
(2,15) and resume `rY` with counts (1,7).  Both documents contain both
vocabulary tokens, so with two documents every smoothed idf is
`ln(3/3) + 1 = 1` and the tf-idf vectors are the raw counts.  The
cosines are `107/√11450 ≈ 0.9999563` for `rX` and exactly `1` for `rY`:
distinct raw scores, but both land on `100.0` after
`round(score*100, 2)`. -/

def rX : ResumeRow :=
  ⟨1, str "one", str "aa aa bb bb bb bb bb bb bb bb bb bb bb bb bb bb bb"⟩

def rY : ResumeRow := ⟨2, str "two", str "aa bb bb bb bb bb bb bb"⟩

def dbC : DB := ⟨[], [rX, rY]⟩

def cacheC : DataCache := load_data dbC DATA_CACHE_init

def qC : PyStr := str "aa bb bb bb bb bb bb bb"

def vC : FittedVectorizer := ⟨[str "aa", str "bb"], [2, 2], 2⟩

theorem cacheC_vec : cacheC.resume_vectorizer = some vC := by decide

theorem cacheC_mat :
    cacheC.resume_matrix = some [[2, 15], [1, 7]] := by decide

theorem routeC : routeCacheResume dbC cacheC = cacheC := by
  unfold routeCacheResume
  rw [if_neg (by decide)]

theorem transformC : sk_transform vC (clean_text qC) = [1, 7] := by decide

theorem employerSimsC :
    employerSims dbC cacheC qC =
      [cosSim (tfidfVec vC [1, 7]) (tfidfVec vC [2, 15]),
       cosSim (tfidfVec vC [1, 7]) (tfidfVec vC [1, 7])] := by
  unfold employerSims
  rw [routeC, cacheC_vec, cacheC_mat]
  show List.map _ [[2, 15], [1, 7]] = _
  rw [transformC]
  rfl

theorem tfidfC_q : tfidfVec vC [1, 7] = [1, 7] := by
  unfold tfidfVec vC
  simp [idfR_self]

theorem tfidfC_d : tfidfVec vC [2, 15] = [2, 15] := by
  unfold tfidfVec vC
  simp [idfR_self]

theorem dotC_qq : dotR ([1, 7] : List ℝ) [1, 7] = 50 := by
  unfold dotR
  norm_num

theorem dotC_dd : dotR ([2, 15] : List ℝ) [2, 15] = 229 := by
  unfold dotR
  norm_num

theorem dotC_qd : dotR ([1, 7] : List ℝ) [2, 15] = 107 := by
  unfold dotR
  norm_num

theorem cosC_1 :
    cosSim (tfidfVec vC [1, 7]) (tfidfVec vC [2, 15]) =
      107 / (Real.sqrt 50 * Real.sqrt 229) := by
  rw [tfidfC_q, tfidfC_d]
  unfold cosSim
  rw [dotC_qq, dotC_dd, dotC_qd]
  rw [if_neg (by norm_num)]

theorem cosC_2 :
    cosSim (tfidfVec vC [1, 7]) (tfidfVec vC [1, 7]) = 1 := by
  rw [tfidfC_q]
  unfold cosSim
  rw [dotC_qq]
  rw [if_neg (by norm_num)]
  rw [Real.mul_self_sqrt (by norm_num)]
  norm_num

theorem sqrt50_mul_sqrt229 :
    Real.sqrt 50 * Real.sqrt 229 = Real.sqrt 11450 := by
  rw [← Real.sqrt_mul (by norm_num)]
  norm_num

/-- `107/√11450 ≈ 0.99995633`, so on the 0-100 two-decimal scale it
rounds to `100.00`. -/
theorem scoreC_1 : pyRound2 (107 / (Real.sqrt 50 * Real.sqrt 229)) = 100 := by
  unfold pyRound2
  rw [sqrt50_mul_sqrt229]
  have ha : Real.sqrt 11450 ^ 2 = 11450 := Real.sq_sqrt (by norm_num)
  have hapos : (0 : ℝ) < Real.sqrt 11450 := Real.sqrt_pos.mpr (by norm_num)
  have h1 : ((10000 : ℤ) : ℝ) - 1 / 2 < 107 / Real.sqrt 11450 * 10000 := by
    rw [div_mul_eq_mul_div, lt_div_iff hapos]
    push_cast
    nlinarith [ha, hapos]
  have h2 : 107 / Real.sqrt 11450 * 10000 < ((10000 : ℤ) : ℝ) + 1 / 2 := by
    rw [div_mul_eq_mul_div, div_lt_iff hapos]
    push_cast
    nlinarith [ha, hapos]
  rw [roundHalfEven_eq h1 h2]
  norm_num

theorem scoreC_2 : pyRound2 1 = 100 := by
  unfold pyRound2
  have h1 : ((10000 : ℤ) : ℝ) - 1 / 2 < (1 : ℝ) * 10000 := by norm_num
  have h2 : (1 : ℝ) * 10000 < ((10000 : ℤ) : ℝ) + 1 / 2 := by norm_num
  rw [roundHalfEven_eq h1 h2]
  norm_num

theorem scoreLoop_nil {β : Type} (mk : Nat → ℝ → β) (i : Nat) :
    scoreLoop mk i [] = [] := rfl

theorem scoreLoop_cons_pos {β : Type} (mk : Nat → ℝ → β) (i : Nat)
    {s : ℝ} (hs : 0 < s) (rest : List ℝ) :
    scoreLoop mk i (s :: rest) = mk i s :: scoreLoop mk (i + 1) rest := by
  show (if 0 < s then mk i s :: scoreLoop mk (i + 1) rest
        else scoreLoop mk (i + 1) rest) = mk i s :: scoreLoop mk (i + 1) rest
  rw [if_pos hs]

/-- The two dicts the employer route builds on the concrete corpus. -/
def M1 : ScoredResume := ⟨1, str "one", rX.resume_text.take 200 ++ str "...", 100⟩

def M2 : ScoredResume := ⟨2, str "two", rY.resume_text.take 200 ++ str "...", 100⟩

theorem mkC_0 :
    mkScoredResume cacheC.resumes 0
      (cosSim (tfidfVec vC [1, 7]) (tfidfVec vC [2, 15])) = M1 := by
  unfold mkScoredResume M1
  rw [cosC_1, scoreC_1]
  congr 1 <;> decide

theorem mkC_1 :
    mkScoredResume cacheC.resumes 1
      (cosSim (tfidfVec vC [1, 7]) (tfidfVec vC [1, 7])) = M2 := by
  unfold mkScoredResume M2
  rw [cosC_2, scoreC_2]
  congr 1 <;> decide

theorem cosC_1_pos :
    (0 : ℝ) < cosSim (tfidfVec vC [1, 7]) (tfidfVec vC [2, 15]) := by
  rw [cosC_1]
  have h50 : (0 : ℝ) < Real.sqrt 50 := Real.sqrt_pos.mpr (by norm_num)
  have h229 : (0 : ℝ) < Real.sqrt 229 := Real.sqrt_pos.mpr (by norm_num)
  positivity

theorem cosC_2_pos :
    (0 : ℝ) < cosSim (tfidfVec vC [1, 7]) (tfidfVec vC [1, 7]) := by
  rw [cosC_2]
  norm_num

/-- Full evaluation of the employer route on the concrete corpus. -/
theorem employer_matchesC : employer_matches dbC cacheC qC = [M1, M2] := by
  unfold employer_matches
  rw [routeC, if_neg (by decide), employerSimsC,
    scoreLoop_cons_pos _ _ cosC_1_pos, scoreLoop_cons_pos _ _ cosC_2_pos,
    scoreLoop_nil, mkC_0, mkC_1]
  decide

/-! ### A concrete one-job corpus for the job-seeker route -/

def jX : JobRow := ⟨5, str "title", str "aa bb", none⟩

def dbJ : DB := ⟨[jX], []⟩

def cacheJ : DataCache := load_data dbJ DATA_CACHE_init

def qJ : PyStr := str "aa bb"

def vJ : FittedVectorizer := ⟨[str "aa", str "bb"], [1, 1], 1⟩

theorem routeJ : routeCacheJob dbJ cacheJ = cacheJ := by
  unfold routeCacheJob
  rw [if_neg (by decide)]

theorem jobSeekerSimsJ :
    jobSeekerSims dbJ cacheJ qJ =
      [cosSim (tfidfVec vJ [1, 1]) (tfidfVec vJ [1, 1])] := by
  unfold jobSeekerSims
  rw [routeJ, show cacheJ.job_vectorizer = some vJ from by decide,
    show cacheJ.job_matrix = some [[1, 1]] from by decide]
  show List.map _ [[1, 1]] = _
  rw [show sk_transform vJ (clean_text qJ) = [1, 1] from by decide]
  rfl

theorem tfidfJ : tfidfVec vJ [1, 1] = [1, 1] := by
  unfold tfidfVec vJ
  simp [idfR_self]

theorem cosJ : cosSim (tfidfVec vJ [1, 1]) (tfidfVec vJ [1, 1]) = 1 := by
  rw [tfidfJ]
  unfold cosSim
  rw [show dotR ([1, 1] : List ℝ) [1, 1] = 2 from by unfold dotR; norm_num]
  rw [if_neg (by norm_num)]
  rw [Real.mul_self_sqrt (by norm_num)]
  norm_num

theorem cosJ_pos : (0 : ℝ) < cosSim (tfidfVec vJ [1, 1]) (tfidfVec vJ [1, 1]) := by
  rw [cosJ]; norm_num

def MJ : ScoredJob := ⟨5, str "title", jX.description.take 200 ++ str "...", none, 100⟩

theorem mkJ_0 :
    mkScoredJob cacheJ.jobs 0 (cosSim (tfidfVec vJ [1, 1]) (tfidfVec vJ [1, 1])) = MJ := by
  unfold mkScoredJob MJ
  rw [cosJ, scoreC_2]
  congr 1 <;> decide

/-- Full evaluation of the job-seeker route on the concrete corpus. -/
theorem job_seeker_matchesJ : job_seeker_matches dbJ cacheJ qJ = [MJ] := by
  unfold job_seeker_matches
  rw [routeJ, if_neg (by decide), jobSeekerSimsJ,
    scoreLoop_cons_pos _ _ cosJ_pos, scoreLoop_nil, mkJ_0]
  decide

/-- C3 counterexample: on the concrete corpus the route returns the
documents in corpus order (ids `[1, 2]`) although the raw similarity of
the first returned document is strictly smaller than that of the second
— the list is *not* sorted by descending raw score, because the code
rounds the scores *before* sorting and the stable sort then preserves
insertion order among equal rounded scores. -/
theorem C3_counterexample :
    (employer_matches dbC cacheC qC).map (fun m => m.id) = [1, 2] ∧
    (employerSims dbC cacheC qC).getD 0 0 < (employerSims dbC cacheC qC).getD 1 0 := by
  constructor
  · rw [employer_matchesC]
    decide
  · rw [employerSimsC]
    show cosSim (tfidfVec vC [1, 7]) (tfidfVec vC [2, 15]) <
      cosSim (tfidfVec vC [1, 7]) (tfidfVec vC [1, 7])
    rw [cosC_1, cosC_2, sqrt50_mul_sqrt229]
    have hapos : (0 : ℝ) < Real.sqrt 11450 := Real.sqrt_pos.mpr (by norm_num)
    rw [div_lt_one hapos]
    rw [show (107 : ℝ) = ((107 : ℝ)) from rfl]
    exact (Real.lt_sqrt (by norm_num)).mpr (by norm_num)

/-- C4 witness: the bound theorem applied to the concrete corpora, with
the positive-similarity decomposition instantiated at the concrete
returned elements. -/
theorem C4_match_bound_witness :
    (employer_matches dbC cacheC qC).length ≤ 3 ∧
    (∃ j s, (employerSims dbC cacheC qC).get? j = some s ∧ 0 < s ∧
      M1 = mkScoredResume (routeCacheResume dbC cacheC).resumes j s) ∧
    (∃ j s, (jobSeekerSims dbJ cacheJ qJ).get? j = some s ∧ 0 < s ∧
      MJ = mkScoredJob (routeCacheJob dbJ cacheJ).jobs j s) :=
  ⟨(C4_match_bound dbC cacheC qC).1,
   (C4_match_bound dbC cacheC qC).2.2.1 M1
     (by rw [employer_matchesC]; exact List.mem_cons_self _ _),
   (C4_match_bound dbJ cacheJ qJ).2.2.2 MJ
     (by rw [job_seeker_matchesJ]; exact List.mem_cons_self _ _)⟩

/-- C7 witness: the all-numeric query `"123"` cleans to the empty
string; the zero-similarity theorem applies on both routes. -/
theorem C7_zero_similarity_witness :
    ((∀ s ∈ employerSims dbC cacheC (str "123"), s = 0) ∧
     employer_matches dbC cacheC (str "123") = []) ∧
    ((∀ s ∈ jobSeekerSims dbJ cacheJ (str "123"), s = 0) ∧
     job_seeker_matches dbJ cacheJ (str "123") = []) :=
  ⟨(C7_zero_similarity dbC cacheC (str "123")).1 (Or.inl (by decide)),
   (C7_zero_similarity dbJ cacheJ (str "123")).2 (Or.inl (by decide))⟩

/-- C10 witness: the field-shape theorem applied to the concrete corpora
at the concrete returned elements. -/
theorem C10_result_fields_witness :
    (∃ r ∈ (routeCacheResume dbC cacheC).resumes,
      M1.id = r.id ∧ M1.name = r.category ∧
      M1.text = r.text.take 200 ++ str "...") ∧
    (∃ jr ∈ (routeCacheJob dbJ cacheJ).jobs,
      MJ.id = jr.id ∧ MJ.title = jr.title ∧ MJ.url = jr.url ∧
      MJ.description = jr.description.take 200 ++ str "...") :=
  ⟨(C10_result_fields dbC cacheC qC
      (Or.inr ⟨dbC, DATA_CACHE_init, rfl, by decide, by decide⟩)).1 M1
     (by rw [employer_matchesC]; exact List.mem_cons_self _ _),
   (C10_result_fields dbJ cacheJ qJ
      (Or.inr ⟨dbJ, DATA_CACHE_init, rfl, by decide, by decide⟩)).2 MJ
     (by rw [job_seeker_matchesJ]; exact List.mem_cons_self _ _)⟩

end Resumatch
